import Mathlib

/-!
# Verification of `sudoku.c` (rg3/sudoku)

A shallow embedding of the C Sudoku solver in `src/sudoku.c`, together with
proofs of the specification claims.

Modelling conventions:
* A C `candidates` array (`int[10]`, indices 1..9 used) becomes a
  `List Bool` of length 10; `(*c)[i]` nonzero becomes entry `i` being `true`.
* `struct cell` keeps its `has_value` flag (as `Bool`) and `value` (as `Nat`).
  The three candidate-array pointers stored in each cell always point to
  `rows + r`, `columns + c` and `squares + square r c` (they are set once by
  `init_board` and never reassigned), so the embedding dereferences them by
  index instead of storing pointers.
* `struct board` keeps the `unset_cells` counter as an `Int` (a C `int`),
  the 10×10 cell matrix as a `List (List cell)` and the three families of
  candidate arrays as `List (List Bool)`; index 0 of every array is unused,
  exactly as in the C code.
* C loops become structural recursions on an explicit counter chosen large
  enough to be exhausted only after the loop's own exit condition must have
  triggered (the scan loop advances through at most 81 cells; the candidate
  loop runs at most 9 times since its floor strictly increases; the
  recursion depth of `solve_board` is at most 81 since every recursive call
  is made with one more cell set).  Fuel sufficiency is proved, not assumed.
* `solveD` returns one extra ghost component: a `Bool` recording whether the
  defensive `if (is_set(b, r, c)) return 1;` branch was taken anywhere in
  the call tree.  The ghost flag never influences control flow; the actual
  program's result is the first two components (`solve_board`).
* `print_board` only performs output and is not modelled; `read_board`
  consumes its stream as a `List Char`.
-/

namespace Sudoku

/-- A candidates array: which of the values have been used in a row, column
or square.  C type: `int[10]`, entries 1..9 meaningful. -/
abbrev candidates := List Bool

/-- Reading entry `i` of a candidates array (`(*c)[i]`). -/
def used (c : candidates) (i : Nat) : Bool := c.getD i false

/-- `init_candidates`: all candidates start as unused. -/
def init_candidates : candidates := List.replicate 10 false

/-- `use_candidate`: mark `num` as used. -/
def use_candidate (c : candidates) (num : Nat) : candidates := c.set num true

/-- `restore_candidate`: mark `num` as unused. -/
def restore_candidate (c : candidates) (num : Nat) : candidates := c.set num false

/-- `struct cell`, without the three pointers (recovered by index). -/
structure cell where
  has_value : Bool
  value : Nat
deriving DecidableEq, Repr

/-- `struct board`. -/
structure board where
  unset_cells : Int
  cells : List (List cell)
  rows : List candidates
  columns : List candidates
  squares : List candidates
deriving DecidableEq, Repr

/-- `square(row, col)`: the square number of a cell, 1..9, numbered top to
bottom, left to right. -/
def square (row col : Nat) : Nat :=
  ((row - 1) / 3) * 3 + (col - 1) / 3 + 1

/-- The blank cell every board starts from. -/
def blankCell : cell := ⟨false, 0⟩

/-- `init_board`: every board starts empty, 81 unset cells, all candidate
arrays clear. -/
def init_board : board :=
  { unset_cells := 81
    cells := List.replicate 10 (List.replicate 10 blankCell)
    rows := List.replicate 10 init_candidates
    columns := List.replicate 10 init_candidates
    squares := List.replicate 10 init_candidates }

/-- The cell at position `(r, c)` (`b->cells[r][c]`). -/
def cellAt (b : board) (r c : Nat) : cell := (b.cells.getD r []).getD c blankCell

/-- The row candidates array a cell at row `r` points to (`b->rows + r`). -/
def rowC (b : board) (r : Nat) : candidates := b.rows.getD r []

/-- The column candidates array a cell at column `c` points to. -/
def colC (b : board) (c : Nat) : candidates := b.columns.getD c []

/-- The square candidates array with index `s` (`b->squares + s`). -/
def sqC (b : board) (s : Nat) : candidates := b.squares.getD s []

/-- Scanning loop of `find_common_free`: try `n` successive values starting
at `i`; return the first free in all three arrays, else `-1`. -/
def fcfAux (r c s : candidates) : Nat → Nat → Int
  | 0, _ => -1
  | n + 1, i =>
      if !used r i && !used c i && !used s i then (i : Int)
      else fcfAux r c s n (i + 1)

/-- `find_common_free`: the lowest number free in all three arrays with
value at least `atleast`, or `-1` if there is none.  The C loop runs
`i = atleast, ..., 9`, which is `10 - atleast` iterations. -/
def find_common_free (r c s : candidates) (atleast : Nat) : Int :=
  fcfAux r c s (10 - atleast) atleast

/-- `set_cell`: store a value in a cell, mark it used in the row, column
and square candidate arrays, decrement the unset-cell counter. -/
def set_cell (b : board) (r c val : Nat) : board :=
  { unset_cells := b.unset_cells - 1
    cells := b.cells.set r ((b.cells.getD r []).set c ⟨true, val⟩)
    rows := b.rows.set r (use_candidate (rowC b r) val)
    columns := b.columns.set c (use_candidate (colC b c) val)
    squares := b.squares.set (square r c) (use_candidate (sqC b (square r c)) val) }

/-- `unset_cell`: clear a cell, clear the three candidate marks, increment
the unset-cell counter. -/
def unset_cell (b : board) (r c val : Nat) : board :=
  { unset_cells := b.unset_cells + 1
    cells := b.cells.set r ((b.cells.getD r []).set c ⟨false, 0⟩)
    rows := b.rows.set r (restore_candidate (rowC b r) val)
    columns := b.columns.set c (restore_candidate (colC b c) val)
    squares := b.squares.set (square r c) (restore_candidate (sqC b (square r c)) val) }

/-- `is_set`: whether cell `(r, c)` has a value. -/
def is_set (b : board) (r c : Nat) : Bool := (cellAt b r c).has_value

/-- `following`: the number after `num`, circularly in 1..9. -/
def following (num : Nat) : Nat := (num - 1 + 1) % 9 + 1

/-- `next_cell`: the cell after `(r, c)` in row-major order, or `none`
after `(9, 9)`. -/
def next_cell (r c : Nat) : Option (Nat × Nat) :=
  if r = 9 ∧ c = 9 then none
  else some (if following c = 1 then following r else r, following c)

/-- The scan `while (is_set(b, r, c) && next_cell(&r, &c));` of
`solve_board`: advance past set cells; stop at the first unset cell or at
`(9, 9)`.  The counter `n` only bounds the number of loop iterations; `81`
always suffices (proved below). -/
def findUnset (b : board) : Nat → Nat → Nat → Nat × Nat
  | 0, r, c => (r, c)
  | n + 1, r, c =>
      if is_set b r c then
        match next_cell r c with
        | some (r', c') => findUnset b n r' c'
        | none => (r, c)
      else (r, c)

/-- The candidate loop of `solve_board` (`prev = MIN_NUM; while (1) ...`),
parametrised by the recursive solver `go`.  `n` bounds the number of
iterations; since `find_common_free` returns a value `≥ prev ≤ 9` and the
floor becomes `val + 1`, at most `10 - prev` iterations can occur, so the
initial `n = 9` with `prev = 1` is never exhausted (proved below).
The third result component is the ghost defensive-branch flag. -/
def tryVals (go : board → Nat → Nat → Bool × board × Bool) :
    Nat → board → Nat → Nat → Nat → Bool × board × Bool
  | 0, b, _, _, _ => (false, b, false)
  | n + 1, b, r, c, prev =>
      let v := find_common_free (rowC b r) (colC b c) (sqC b (square r c)) prev
      if v = -1 then (false, b, false)
      else
        let vn := v.toNat
        let res := go (set_cell b r c vn) r c
        if res.1 then res
        else
          let rest := tryVals go n (unset_cell res.2.1 r c vn) r c (vn + 1)
          (rest.1, rest.2.1, res.2.2 || rest.2.2)

/-- `solve_board`, with an explicit recursion-depth fuel and the ghost
defensive-branch flag.  Fuel `82` always suffices since each recursive call
is made with one more cell set (proved below). -/
def solveD : Nat → board → Nat → Nat → Bool × board × Bool
  | 0, b, _, _ => (false, b, false)
  | fuel + 1, b, r, c =>
      if b.unset_cells = 0 then (true, b, false)
      else
        let p := findUnset b 81 r c
        if is_set b p.1 p.2 then (true, b, true)
        else tryVals (solveD fuel) 9 b p.1 p.2 1

/-- `solve_board(b, r, c)`: success flag and resulting board. -/
def solve_board (b : board) (r c : Nat) : Bool × board :=
  ((solveD 82 b r c).1, (solveD 82 b r c).2.1)

/-- The loop of `read_board`, over a character stream. -/
def readGo : List Char → board → Nat → Nat → board
  | [], b, _, _ => b
  | ch :: rest, b, row, col =>
      if (ch.isDigit && ch != '0') || ch == '.' then
        let b' := if ch != '.' then set_cell b row col (ch.toNat - '0'.toNat) else b
        match next_cell row col with
        | none => b'
        | some (r', c') => readGo rest b' r' c'
      else readGo rest b row col

/-- `read_board`: digits 1..9 set the current cell, `.` leaves it unset,
everything else is ignored; cells are filled top to bottom, left to right. -/
def read_board (input : List Char) (b : board) : board := readGo input b 1 1

/-! ## Observations of a board -/

/-- The nine valid indices / values. -/
def nums : List Nat := List.range' 1 9

/-- All 81 board positions `(row, col)`. -/
def allPos : List (Nat × Nat) := nums.flatMap (fun i => nums.map (fun j => (i, j)))

/-- `has_value` flag of cell `(i, j)`. -/
def hv (b : board) (i j : Nat) : Bool := (cellAt b i j).has_value

/-- `value` of cell `(i, j)`. -/
def cv (b : board) (i j : Nat) : Nat := (cellAt b i j).value

/-- Cell `(i, j)` is set and holds value `v`. -/
def holds (b : board) (i j v : Nat) : Bool := hv b i j && (cv b i j == v)

/-- Value `v` is marked used in row `i`'s candidates array. -/
def rused (b : board) (i v : Nat) : Bool := used (rowC b i) v

/-- Value `v` is marked used in column `j`'s candidates array. -/
def cused (b : board) (j v : Nat) : Bool := used (colC b j) v

/-- Value `v` is marked used in square `s`'s candidates array. -/
def sqused (b : board) (s v : Nat) : Bool := used (sqC b s) v

/-- Number of cells of row `i` holding value `v`. -/
def rowCount (b : board) (i v : Nat) : Nat := nums.countP (fun j => holds b i j v)

/-- Number of cells of column `j` holding value `v`. -/
def colCount (b : board) (j v : Nat) : Nat := nums.countP (fun i => holds b i j v)

/-- Number of cells of square `s` holding value `v`. -/
def sqCount (b : board) (s v : Nat) : Nat :=
  allPos.countP (fun p => square p.1 p.2 == s && holds b p.1 p.2 v)

/-- Number of unset cells actually present in the cell matrix. -/
def unsetCount (b : board) : Nat := allPos.countP (fun p => !hv b p.1 p.2)

/-- The shape of the fixed-size C arrays of `struct board`: a 10×10 cell
matrix and three families of ten 10-entry candidate arrays.  In C this is
part of the type itself; with lists it is an explicit predicate. -/
def dims (b : board) : Prop :=
  b.cells.length = 10 ∧ (∀ row ∈ b.cells, row.length = 10) ∧
  b.rows.length = 10 ∧ (∀ cl ∈ b.rows, cl.length = 10) ∧
  b.columns.length = 10 ∧ (∀ cl ∈ b.columns, cl.length = 10) ∧
  b.squares.length = 10 ∧ (∀ cl ∈ b.squares, cl.length = 10)

instance : DecidablePred dims := fun b => by unfold dims; infer_instance

/-- The board invariant: shapes are right, the unset-cell counter counts
the unset cells, a value is marked in a row/column/square candidates array
iff exactly one cell of that row/column/square holds it (and it is marked
iff at least one does), and set cells hold values in 1..9. -/
def Inv (b : board) : Prop :=
  dims b ∧
  b.unset_cells = (unsetCount b : Int) ∧
  (∀ i ∈ nums, ∀ v ∈ nums, rowCount b i v = if rused b i v then 1 else 0) ∧
  (∀ j ∈ nums, ∀ v ∈ nums, colCount b j v = if cused b j v then 1 else 0) ∧
  (∀ s ∈ nums, ∀ v ∈ nums, sqCount b s v = if sqused b s v then 1 else 0) ∧
  (∀ i ∈ nums, ∀ j ∈ nums, hv b i j = true → 1 ≤ cv b i j ∧ cv b i j ≤ 9)

instance : DecidablePred Inv := fun b => by unfold Inv; infer_instance

/-- `b'` agrees with `b` on everything the C program can observe after a
failed search: the counter, every `has_value` flag, the value of every set
cell, and every candidates-array mark.  (The `value` field of an unset
cell is dead data: it is never read before being overwritten.) -/
def restored (b' b : board) : Prop :=
  b'.unset_cells = b.unset_cells ∧
  (∀ i j, hv b' i j = hv b i j) ∧
  (∀ i j, hv b i j = true → cv b' i j = cv b i j) ∧
  (∀ i v, rused b' i v = rused b i v) ∧
  (∀ j v, cused b' j v = cused b j v) ∧
  (∀ s v, sqused b' s v = sqused b s v)

/-- Boards built from `init_board` by `set_cell` and `unset_cell` calls
respecting their preconditions (the `assert_`ed ones and the documented
contract: set an unset cell to an unmarked value in 1..9; unset a cell
holding exactly the given value). -/
inductive Built : board → Prop
  | init : Built init_board
  | set (b : board) (r c v : Nat) : Built b →
      1 ≤ r → r ≤ 9 → 1 ≤ c → c ≤ 9 → 1 ≤ v → v ≤ 9 →
      is_set b r c = false →
      rused b r v = false → cused b c v = false → sqused b (square r c) v = false →
      Built (set_cell b r c v)
  | unset (b : board) (r c v : Nat) : Built b →
      1 ≤ r → r ≤ 9 → 1 ≤ c → c ≤ 9 → 1 ≤ v → v ≤ 9 →
      holds b r c v = true →
      Built (unset_cell b r c v)

/-- Row-major rank of a position. -/
def rmIdx (r c : Nat) : Nat := 9 * r + c

/-- All unset cells of `b` lie at or after `(r, c)` in row-major order. -/
def Pfx (b : board) (r c : Nat) : Prop :=
  ∀ i j, 1 ≤ i → i ≤ 9 → 1 ≤ j → j ≤ 9 → hv b i j = false → rmIdx r c ≤ rmIdx i j

/-- All three candidate arrays are free at `k`: the loop condition of
`find_common_free`. -/
def freeIn (r c s : candidates) (k : Nat) : Bool :=
  !used r k && !used c k && !used s k

/-- What `tryVals_restore` and `solveD_spec` establish about a call of the
solver on a board of the right shape: the shape is preserved, failure
restores the board, and set cells are never touched. -/
def SolveSpec (go : board → Nat → Nat → Bool × board × Bool) : Prop :=
  ∀ b r c, dims b → 1 ≤ r → r ≤ 9 → 1 ≤ c → c ≤ 9 →
    dims (go b r c).2.1 ∧
    ((go b r c).1 = false → restored (go b r c).2.1 b) ∧
    (∀ i j, hv b i j = true →
      hv (go b r c).2.1 i j = true ∧ cv (go b r c).2.1 i j = cv b i j)


/-- What the invariant induction establishes: the ghost defensive flag is
never raised, the invariant is preserved, and success means the counter
reached zero. -/
def SolveInvSpec (go : board → Nat → Nat → Bool × board × Bool) : Prop :=
  ∀ b r c, Inv b → 1 ≤ r → r ≤ 9 → 1 ≤ c → c ≤ 9 → Pfx b r c →
    (go b r c).2.2 = false ∧
    Inv (go b r c).2.1 ∧
    ((go b r c).1 = true → (go b r c).2.1.unset_cells = 0)


/-! ## Loading a list of givens -/

/-- Apply a list of `(row, col, value)` givens with `set_cell`, in order:
the loader's population of the grid. -/
def placeAll (b : board) (ts : List (Nat × Nat × Nat)) : board :=
  ts.foldl (fun b t => set_cell b t.1 t.2.1 t.2.2) b

/-- Check that every given of the list can be placed in turn respecting
`set_cell`'s precondition. -/
def canPlaceAll : board → List (Nat × Nat × Nat) → Bool
  | _, [] => true
  | b, t :: ts =>
      if 1 ≤ t.1 ∧ t.1 ≤ 9 ∧ 1 ≤ t.2.1 ∧ t.2.1 ≤ 9 ∧ 1 ≤ t.2.2 ∧ t.2.2 ≤ 9 ∧
          is_set b t.1 t.2.1 = false ∧ rused b t.1 t.2.2 = false ∧
          cused b t.2.1 t.2.2 = false ∧ sqused b (square t.1 t.2.1) t.2.2 = false then
        canPlaceAll (set_cell b t.1 t.2.1 t.2.2) ts
      else false


/-- The 80 givens of a complete shifted-rows Sudoku grid, all cells except
`(9, 9)` (whose solution value is 8). -/
def grid80 : List (Nat × Nat × Nat) :=
  [(1, 1, 1), (1, 2, 2), (1, 3, 3), (1, 4, 4), (1, 5, 5), (1, 6, 6), (1, 7, 7),
   (1, 8, 8), (1, 9, 9), (2, 1, 4), (2, 2, 5), (2, 3, 6), (2, 4, 7), (2, 5, 8),
   (2, 6, 9), (2, 7, 1), (2, 8, 2), (2, 9, 3), (3, 1, 7), (3, 2, 8), (3, 3, 9),
   (3, 4, 1), (3, 5, 2), (3, 6, 3), (3, 7, 4), (3, 8, 5), (3, 9, 6), (4, 1, 2),
   (4, 2, 3), (4, 3, 4), (4, 4, 5), (4, 5, 6), (4, 6, 7), (4, 7, 8), (4, 8, 9),
   (4, 9, 1), (5, 1, 5), (5, 2, 6), (5, 3, 7), (5, 4, 8), (5, 5, 9), (5, 6, 1),
   (5, 7, 2), (5, 8, 3), (5, 9, 4), (6, 1, 8), (6, 2, 9), (6, 3, 1), (6, 4, 2),
   (6, 5, 3), (6, 6, 4), (6, 7, 5), (6, 8, 6), (6, 9, 7), (7, 1, 3), (7, 2, 4),
   (7, 3, 5), (7, 4, 6), (7, 5, 7), (7, 6, 8), (7, 7, 9), (7, 8, 1), (7, 9, 2),
   (8, 1, 6), (8, 2, 7), (8, 3, 8), (8, 4, 9), (8, 5, 1), (8, 6, 2), (8, 7, 3),
   (8, 8, 4), (8, 9, 5), (9, 1, 9), (9, 2, 1), (9, 3, 2), (9, 4, 3), (9, 5, 4),
   (9, 6, 5), (9, 7, 6), (9, 8, 7)]

/-- A board with 80 givens and one free cell. -/
def b80 : board := placeAll init_board grid80

/-- An unreachable board: cell `(1, 1)` is unset but its dead `value`
field holds 7 instead of 0. -/
def junkBoard : board :=
  { init_board with
      cells := init_board.cells.set 1 ((init_board.cells.getD 1 []).set 1 ⟨false, 7⟩) }

/-- An unsolvable board: no cell is set, but row 1's candidates array
marks every value used, so the first cell has no candidate. -/
def bFail : board :=
  { init_board with rows := init_board.rows.set 1 (List.replicate 10 true) }

/-- A board whose counter is 0 with one set cell: `solve_board` succeeds
immediately on it. -/
def bDone : board :=
  { init_board with
      unset_cells := 0
      cells := init_board.cells.set 1 ((init_board.cells.getD 1 []).set 1 ⟨true, 5⟩) }

/-! ## List helper lemmas -/

theorem getD_set_self {α : Type} (l : List α) (i : Nat) (a d : α) (h : i < l.length) :
    (l.set i a).getD i d = a := by
  rw [List.getD_eq_getElem?_getD, List.getElem?_set]
  simp [h]

theorem getD_set_ne {α : Type} (l : List α) (i j : Nat) (a d : α) (h : i ≠ j) :
    (l.set i a).getD j d = l.getD j d := by
  rw [List.getD_eq_getElem?_getD, List.getElem?_set, if_neg h, ← List.getD_eq_getElem?_getD]

theorem set_getD_self {α : Type} (l : List α) (i : Nat) (x d : α) (h : l.getD i d = x) :
    l.set i x = l := by
  induction l generalizing i with
  | nil => rfl
  | cons hd tl ih =>
    cases i with
    | zero =>
      rw [List.getD_cons_zero] at h
      simp [List.set, h]
    | succ n =>
      rw [List.getD_cons_succ] at h
      simp [List.set, ih n h]

/-- How `countP` changes when a predicate is modified at a single element
of a duplicate-free list. -/
theorem countP_update {α : Type} (l : List α) (hl : l.Nodup) (a : α) (ha : a ∈ l)
    (p q : α → Bool) (h : ∀ x ∈ l, x ≠ a → q x = p x) :
    (if p a = true then 1 else 0) + l.countP q
      = (if q a = true then 1 else 0) + l.countP p := by
  induction l with
  | nil => cases ha
  | cons hd tl ih =>
    rw [List.countP_cons, List.countP_cons]
    rcases List.mem_cons.mp ha with rfl | hmem
    · have htl : List.countP q tl = List.countP p tl := by
        apply List.countP_congr
        intro x hx
        have hxa : x ≠ a := by
          rintro rfl
          exact (List.nodup_cons.mp hl).1 hx
        rw [h x (List.mem_cons_of_mem _ hx) hxa]
      rw [htl]
      cases hp : p a <;> cases hq : q a <;> simp [hp, hq] <;> omega
    · have hhd : q hd = p hd := by
        apply h hd (List.mem_cons_self _ _)
        rintro rfl
        exact (List.nodup_cons.mp hl).1 hmem
      have := ih (List.nodup_cons.mp hl).2 hmem
        (fun x hx hxa => h x (List.mem_cons_of_mem _ hx) hxa)
      rw [hhd]
      omega

theorem mem_nums {i : Nat} : i ∈ nums ↔ 1 ≤ i ∧ i ≤ 9 := by
  simp only [nums, List.mem_range']
  constructor
  · rintro ⟨k, hk, rfl⟩
    omega
  · intro h
    exact ⟨i - 1, by omega, by omega⟩

theorem nums_nodup : nums.Nodup := List.nodup_range' 1 9

theorem nums_length : nums.length = 9 := rfl

theorem mem_allPos {p : Nat × Nat} :
    p ∈ allPos ↔ (1 ≤ p.1 ∧ p.1 ≤ 9) ∧ (1 ≤ p.2 ∧ p.2 ≤ 9) := by
  obtain ⟨i, j⟩ := p
  simp only [allPos, List.mem_flatMap, List.mem_map, Prod.mk.injEq]
  constructor
  · rintro ⟨x, hx, y, hy, rfl, rfl⟩
    exact ⟨mem_nums.mp hx, mem_nums.mp hy⟩
  · rintro ⟨hi, hj⟩
    exact ⟨i, mem_nums.mpr hi, j, mem_nums.mpr hj, rfl, rfl⟩

theorem allPos_nodup : allPos.Nodup := by decide

theorem square_bounds {r c : Nat} (hr1 : 1 ≤ r) (hr9 : r ≤ 9) (hc1 : 1 ≤ c) (hc9 : c ≤ 9) :
    1 ≤ square r c ∧ square r c ≤ 9 := by
  unfold square
  omega

/-! ## Pointwise effect of `set_cell` and `unset_cell` -/

theorem cellRow_length {b : board} (hb : dims b) {r : Nat} (hr : r ≤ 9) :
    (b.cells.getD r []).length = 10 := by
  have hlt : r < b.cells.length := by rw [hb.1]; omega
  rw [List.getD_eq_getElem _ _ hlt]
  exact hb.2.1 _ (List.getElem_mem hlt)

theorem rowC_length {b : board} (hb : dims b) {r : Nat} (hr : r ≤ 9) :
    (rowC b r).length = 10 := by
  have hlt : r < b.rows.length := by rw [hb.2.2.1]; omega
  rw [rowC, List.getD_eq_getElem _ _ hlt]
  exact hb.2.2.2.1 _ (List.getElem_mem hlt)

theorem colC_length {b : board} (hb : dims b) {c : Nat} (hc : c ≤ 9) :
    (colC b c).length = 10 := by
  have hlt : c < b.columns.length := by rw [hb.2.2.2.2.1]; omega
  rw [colC, List.getD_eq_getElem _ _ hlt]
  exact hb.2.2.2.2.2.1 _ (List.getElem_mem hlt)

theorem sqC_length {b : board} (hb : dims b) {s : Nat} (hs : s ≤ 9) :
    (sqC b s).length = 10 := by
  have hlt : s < b.squares.length := by rw [hb.2.2.2.2.2.2.1]; omega
  rw [sqC, List.getD_eq_getElem _ _ hlt]
  exact hb.2.2.2.2.2.2.2 _ (List.getElem_mem hlt)

theorem cellAt_set_cell {b : board} (hb : dims b) {r c : Nat} (hr : r ≤ 9) (hc : c ≤ 9)
    (v : Nat) (i j : Nat) :
    cellAt (set_cell b r c v) i j = if i = r ∧ j = c then ⟨true, v⟩ else cellAt b i j := by
  show ((b.cells.set r _).getD i []).getD j blankCell = _
  by_cases hi : i = r
  · rw [hi, getD_set_self _ _ _ _ (by rw [hb.1]; omega)]
    by_cases hj : j = c
    · rw [hj, getD_set_self _ _ _ _ (by rw [cellRow_length hb hr]; omega),
        if_pos ⟨rfl, rfl⟩]
    · rw [getD_set_ne _ _ _ _ _ (fun e => hj e.symm), if_neg (fun h => hj h.2)]
      rfl
  · rw [getD_set_ne _ _ _ _ _ (fun e => hi e.symm), if_neg (fun h => hi h.1)]
    rfl

theorem cellAt_unset_cell {b : board} (hb : dims b) {r c : Nat} (hr : r ≤ 9) (hc : c ≤ 9)
    (v : Nat) (i j : Nat) :
    cellAt (unset_cell b r c v) i j = if i = r ∧ j = c then ⟨false, 0⟩ else cellAt b i j := by
  show ((b.cells.set r _).getD i []).getD j blankCell = _
  by_cases hi : i = r
  · rw [hi, getD_set_self _ _ _ _ (by rw [hb.1]; omega)]
    by_cases hj : j = c
    · rw [hj, getD_set_self _ _ _ _ (by rw [cellRow_length hb hr]; omega),
        if_pos ⟨rfl, rfl⟩]
    · rw [getD_set_ne _ _ _ _ _ (fun e => hj e.symm), if_neg (fun h => hj h.2)]
      rfl
  · rw [getD_set_ne _ _ _ _ _ (fun e => hi e.symm), if_neg (fun h => hi h.1)]
    rfl

theorem hv_set_cell {b : board} (hb : dims b) {r c : Nat} (hr : r ≤ 9) (hc : c ≤ 9)
    (v : Nat) (i j : Nat) :
    hv (set_cell b r c v) i j = if i = r ∧ j = c then true else hv b i j := by
  rw [hv, cellAt_set_cell hb hr hc]
  split <;> rfl

theorem cv_set_cell {b : board} (hb : dims b) {r c : Nat} (hr : r ≤ 9) (hc : c ≤ 9)
    (v : Nat) (i j : Nat) :
    cv (set_cell b r c v) i j = if i = r ∧ j = c then v else cv b i j := by
  rw [cv, cellAt_set_cell hb hr hc]
  split <;> rfl

theorem hv_unset_cell {b : board} (hb : dims b) {r c : Nat} (hr : r ≤ 9) (hc : c ≤ 9)
    (v : Nat) (i j : Nat) :
    hv (unset_cell b r c v) i j = if i = r ∧ j = c then false else hv b i j := by
  rw [hv, cellAt_unset_cell hb hr hc]
  split <;> rfl

theorem cv_unset_cell {b : board} (hb : dims b) {r c : Nat} (hr : r ≤ 9) (hc : c ≤ 9)
    (v : Nat) (i j : Nat) :
    cv (unset_cell b r c v) i j = if i = r ∧ j = c then 0 else cv b i j := by
  rw [cv, cellAt_unset_cell hb hr hc]
  split <;> rfl

theorem rused_set_cell {b : board} (hb : dims b) {r c v : Nat} (hr : r ≤ 9) (hv9 : v ≤ 9)
    (i w : Nat) :
    rused (set_cell b r c v) i w = if i = r ∧ w = v then true else rused b i w := by
  show used ((b.rows.set r ((rowC b r).set v true)).getD i []) w = _
  by_cases hi : i = r
  · rw [hi, getD_set_self _ _ _ _ (by rw [hb.2.2.1]; omega)]
    by_cases hw : w = v
    · rw [hw]
      unfold used
      rw [getD_set_self _ _ _ _ (by rw [rowC_length hb hr]; omega),
        if_pos ⟨rfl, rfl⟩]
    · unfold used
      rw [getD_set_ne _ _ _ _ _ (fun e => hw e.symm), if_neg (fun h => hw h.2)]
      rfl
  · rw [getD_set_ne _ _ _ _ _ (fun e => hi e.symm), if_neg (fun h => hi h.1)]
    rfl

theorem cused_set_cell {b : board} (hb : dims b) {r c v : Nat} (hc : c ≤ 9) (hv9 : v ≤ 9)
    (j w : Nat) :
    cused (set_cell b r c v) j w = if j = c ∧ w = v then true else cused b j w := by
  show used ((b.columns.set c ((colC b c).set v true)).getD j []) w = _
  by_cases hj : j = c
  · rw [hj, getD_set_self _ _ _ _ (by rw [hb.2.2.2.2.1]; omega)]
    by_cases hw : w = v
    · rw [hw]
      unfold used
      rw [getD_set_self _ _ _ _ (by rw [colC_length hb hc]; omega),
        if_pos ⟨rfl, rfl⟩]
    · unfold used
      rw [getD_set_ne _ _ _ _ _ (fun e => hw e.symm), if_neg (fun h => hw h.2)]
      rfl
  · rw [getD_set_ne _ _ _ _ _ (fun e => hj e.symm), if_neg (fun h => hj h.1)]
    rfl

theorem sqused_set_cell {b : board} (hb : dims b) {r c v : Nat} (hsq : square r c ≤ 9)
    (hv9 : v ≤ 9) (s w : Nat) :
    sqused (set_cell b r c v) s w = if s = square r c ∧ w = v then true else sqused b s w := by
  show used ((b.squares.set (square r c) ((sqC b (square r c)).set v true)).getD s []) w = _
  by_cases hs : s = square r c
  · rw [hs, getD_set_self _ _ _ _ (by rw [hb.2.2.2.2.2.2.1]; omega)]
    by_cases hw : w = v
    · rw [hw]
      unfold used
      rw [getD_set_self _ _ _ _ (by rw [sqC_length hb hsq]; omega),
        if_pos ⟨rfl, rfl⟩]
    · unfold used
      rw [getD_set_ne _ _ _ _ _ (fun e => hw e.symm), if_neg (fun h => hw h.2)]
      rfl
  · rw [getD_set_ne _ _ _ _ _ (fun e => hs e.symm), if_neg (fun h => hs h.1)]
    rfl

theorem rused_unset_cell {b : board} (hb : dims b) {r c v : Nat} (hr : r ≤ 9) (hv9 : v ≤ 9)
    (i w : Nat) :
    rused (unset_cell b r c v) i w = if i = r ∧ w = v then false else rused b i w := by
  show used ((b.rows.set r ((rowC b r).set v false)).getD i []) w = _
  by_cases hi : i = r
  · rw [hi, getD_set_self _ _ _ _ (by rw [hb.2.2.1]; omega)]
    by_cases hw : w = v
    · rw [hw]
      unfold used
      rw [getD_set_self _ _ _ _ (by rw [rowC_length hb hr]; omega),
        if_pos ⟨rfl, rfl⟩]
    · unfold used
      rw [getD_set_ne _ _ _ _ _ (fun e => hw e.symm), if_neg (fun h => hw h.2)]
      rfl
  · rw [getD_set_ne _ _ _ _ _ (fun e => hi e.symm), if_neg (fun h => hi h.1)]
    rfl

theorem cused_unset_cell {b : board} (hb : dims b) {r c v : Nat} (hc : c ≤ 9) (hv9 : v ≤ 9)
    (j w : Nat) :
    cused (unset_cell b r c v) j w = if j = c ∧ w = v then false else cused b j w := by
  show used ((b.columns.set c ((colC b c).set v false)).getD j []) w = _
  by_cases hj : j = c
  · rw [hj, getD_set_self _ _ _ _ (by rw [hb.2.2.2.2.1]; omega)]
    by_cases hw : w = v
    · rw [hw]
      unfold used
      rw [getD_set_self _ _ _ _ (by rw [colC_length hb hc]; omega),
        if_pos ⟨rfl, rfl⟩]
    · unfold used
      rw [getD_set_ne _ _ _ _ _ (fun e => hw e.symm), if_neg (fun h => hw h.2)]
      rfl
  · rw [getD_set_ne _ _ _ _ _ (fun e => hj e.symm), if_neg (fun h => hj h.1)]
    rfl

theorem sqused_unset_cell {b : board} (hb : dims b) {r c v : Nat} (hsq : square r c ≤ 9)
    (hv9 : v ≤ 9) (s w : Nat) :
    sqused (unset_cell b r c v) s w = if s = square r c ∧ w = v then false else sqused b s w := by
  show used ((b.squares.set (square r c) ((sqC b (square r c)).set v false)).getD s []) w = _
  by_cases hs : s = square r c
  · rw [hs, getD_set_self _ _ _ _ (by rw [hb.2.2.2.2.2.2.1]; omega)]
    by_cases hw : w = v
    · rw [hw]
      unfold used
      rw [getD_set_self _ _ _ _ (by rw [sqC_length hb hsq]; omega),
        if_pos ⟨rfl, rfl⟩]
    · unfold used
      rw [getD_set_ne _ _ _ _ _ (fun e => hw e.symm), if_neg (fun h => hw h.2)]
      rfl
  · rw [getD_set_ne _ _ _ _ _ (fun e => hs e.symm), if_neg (fun h => hs h.1)]
    rfl

theorem dims_set_cell {b : board} (hb : dims b) {r c v : Nat} (hr : r ≤ 9) (hc : c ≤ 9)
    (hsq : square r c ≤ 9) : dims (set_cell b r c v) := by
  obtain ⟨h1, h2, h3, h4, h5, h6, h7, h8⟩ := hb
  refine ⟨?_, ?_, ?_, ?_, ?_, ?_, ?_, ?_⟩
  · show (b.cells.set r _).length = 10
    rw [List.length_set]; exact h1
  · intro row hrow
    rcases List.mem_or_eq_of_mem_set hrow with hm | rfl
    · exact h2 _ hm
    · rw [List.length_set]
      exact cellRow_length ⟨h1, h2, h3, h4, h5, h6, h7, h8⟩ hr
  · show (b.rows.set r _).length = 10
    rw [List.length_set]; exact h3
  · intro cl hcl
    rcases List.mem_or_eq_of_mem_set hcl with hm | rfl
    · exact h4 _ hm
    · rw [use_candidate, List.length_set]
      exact rowC_length ⟨h1, h2, h3, h4, h5, h6, h7, h8⟩ hr
  · show (b.columns.set c _).length = 10
    rw [List.length_set]; exact h5
  · intro cl hcl
    rcases List.mem_or_eq_of_mem_set hcl with hm | rfl
    · exact h6 _ hm
    · rw [use_candidate, List.length_set]
      exact colC_length ⟨h1, h2, h3, h4, h5, h6, h7, h8⟩ hc
  · show (b.squares.set (square r c) _).length = 10
    rw [List.length_set]; exact h7
  · intro cl hcl
    rcases List.mem_or_eq_of_mem_set hcl with hm | rfl
    · exact h8 _ hm
    · rw [use_candidate, List.length_set]
      exact sqC_length ⟨h1, h2, h3, h4, h5, h6, h7, h8⟩ hsq

theorem dims_unset_cell {b : board} (hb : dims b) {r c v : Nat} (hr : r ≤ 9) (hc : c ≤ 9)
    (hsq : square r c ≤ 9) : dims (unset_cell b r c v) := by
  obtain ⟨h1, h2, h3, h4, h5, h6, h7, h8⟩ := hb
  refine ⟨?_, ?_, ?_, ?_, ?_, ?_, ?_, ?_⟩
  · show (b.cells.set r _).length = 10
    rw [List.length_set]; exact h1
  · intro row hrow
    rcases List.mem_or_eq_of_mem_set hrow with hm | rfl
    · exact h2 _ hm
    · rw [List.length_set]
      exact cellRow_length ⟨h1, h2, h3, h4, h5, h6, h7, h8⟩ hr
  · show (b.rows.set r _).length = 10
    rw [List.length_set]; exact h3
  · intro cl hcl
    rcases List.mem_or_eq_of_mem_set hcl with hm | rfl
    · exact h4 _ hm
    · rw [restore_candidate, List.length_set]
      exact rowC_length ⟨h1, h2, h3, h4, h5, h6, h7, h8⟩ hr
  · show (b.columns.set c _).length = 10
    rw [List.length_set]; exact h5
  · intro cl hcl
    rcases List.mem_or_eq_of_mem_set hcl with hm | rfl
    · exact h6 _ hm
    · rw [restore_candidate, List.length_set]
      exact colC_length ⟨h1, h2, h3, h4, h5, h6, h7, h8⟩ hc
  · show (b.squares.set (square r c) _).length = 10
    rw [List.length_set]; exact h7
  · intro cl hcl
    rcases List.mem_or_eq_of_mem_set hcl with hm | rfl
    · exact h8 _ hm
    · rw [restore_candidate, List.length_set]
      exact sqC_length ⟨h1, h2, h3, h4, h5, h6, h7, h8⟩ hsq

theorem unset_cells_set_cell (b : board) (r c v : Nat) :
    (set_cell b r c v).unset_cells = b.unset_cells - 1 := rfl

theorem unset_cells_unset_cell (b : board) (r c v : Nat) :
    (unset_cell b r c v).unset_cells = b.unset_cells + 1 := rfl

/-! ## `find_common_free` -/

theorem fcfAux_spec (r c s : candidates) : ∀ n i,
    (fcfAux r c s n i = -1 ∧ ∀ k, i ≤ k → k < i + n → freeIn r c s k = false) ∨
    (∃ k : Nat, i ≤ k ∧ k < i + n ∧ freeIn r c s k = true ∧ fcfAux r c s n i = (k : Int) ∧
      ∀ w, i ≤ w → w < k → freeIn r c s w = false) := by
  intro n
  induction n with
  | zero =>
    intro i
    exact Or.inl ⟨rfl, fun k h1 h2 => absurd h2 (by omega)⟩
  | succ n ih =>
    intro i
    have hstep : fcfAux r c s (n + 1) i
        = if freeIn r c s i then (i : Int) else fcfAux r c s n (i + 1) := rfl
    cases hfree : freeIn r c s i with
    | true =>
      refine Or.inr ⟨i, le_refl i, by omega, hfree, ?_, ?_⟩
      · rw [hstep, if_pos hfree]
      · intro w h1 h2
        omega
    | false =>
      rcases ih (i + 1) with ⟨heq, hnone⟩ | ⟨k, hk1, hk2, hk3, hk4, hk5⟩
      · refine Or.inl ⟨by rw [hstep, if_neg (by simp [hfree])]; exact heq, ?_⟩
        intro k h1 h2
        rcases Nat.eq_or_lt_of_le h1 with rfl | hlt
        · exact hfree
        · exact hnone k hlt (by omega)
      · refine Or.inr ⟨k, by omega, by omega, hk3, ?_, ?_⟩
        · rw [hstep, if_neg (by simp [hfree])]
          exact hk4
        · intro w h1 h2
          rcases Nat.eq_or_lt_of_le h1 with rfl | hlt
          · exact hfree
          · exact hk5 w hlt h2

theorem find_common_free_neg1 {r c s : candidates} {a : Nat}
    (h : find_common_free r c s a = -1) :
    ∀ v, a ≤ v → v ≤ 9 → freeIn r c s v = false := by
  intro v hv1 hv2
  rcases fcfAux_spec r c s (10 - a) a with ⟨_, hnone⟩ | ⟨k, _, _, _, hk4, _⟩
  · exact hnone v hv1 (by omega)
  · rw [find_common_free] at h
    rw [h] at hk4
    cases hk4

theorem find_common_free_some {r c s : candidates} {a : Nat}
    (h : find_common_free r c s a ≠ -1) :
    ∃ v : Nat, find_common_free r c s a = (v : Int) ∧ a ≤ v ∧ v ≤ 9 ∧
      freeIn r c s v = true ∧ ∀ w, a ≤ w → w < v → freeIn r c s w = false := by
  rcases fcfAux_spec r c s (10 - a) a with ⟨heq, _⟩ | ⟨k, hk1, hk2, hk3, hk4, hk5⟩
  · exact absurd heq h
  · exact ⟨k, hk4, hk1, by omega, hk3, hk5⟩

/-! ## Position arithmetic and the scan loop -/

theorem following_of_lt {c : Nat} (h1 : 1 ≤ c) (h9 : c < 9) : following c = c + 1 := by
  unfold following
  omega

theorem following_nine : following 9 = 1 := rfl

theorem next_cell_none_iff {r c : Nat} :
    next_cell r c = none ↔ (r = 9 ∧ c = 9) := by
  unfold next_cell
  by_cases h : r = 9 ∧ c = 9
  · rw [if_pos h]
    simp [h]
  · rw [if_neg h]
    simp [h]

theorem next_cell_some {r c r' c' : Nat} (hr1 : 1 ≤ r) (hr : r ≤ 9) (hc1 : 1 ≤ c) (hc : c ≤ 9)
    (h : next_cell r c = some (r', c')) :
    (1 ≤ r' ∧ r' ≤ 9) ∧ (1 ≤ c' ∧ c' ≤ 9) ∧ rmIdx r' c' = rmIdx r c + 1 := by
  unfold next_cell at h
  by_cases h99 : r = 9 ∧ c = 9
  · rw [if_pos h99] at h
    cases h
  · rw [if_neg h99] at h
    injection h with h
    injection h with h1 h2
    by_cases hc9 : c = 9
    · subst hc9
      rw [following_nine] at h1 h2
      rw [if_pos rfl] at h1
      have hr9 : r < 9 := by
        rcases Nat.lt_or_ge r 9 with hlt | hge
        · exact hlt
        · exact absurd ⟨by omega, rfl⟩ h99
      rw [following_of_lt hr1 hr9] at h1
      subst h1
      subst h2
      unfold rmIdx
      refine ⟨⟨by omega, by omega⟩, ⟨by omega, by omega⟩, by omega⟩
    · have hclt : c < 9 := by omega
      rw [following_of_lt hc1 hclt] at h1 h2
      have hne : ¬(c + 1 = 1) := by omega
      rw [if_neg hne] at h1
      subst h1
      subst h2
      unfold rmIdx
      refine ⟨⟨by omega, by omega⟩, ⟨by omega, by omega⟩, by omega⟩

theorem rmIdx_le_90 {r c : Nat} (hr : r ≤ 9) (hc : c ≤ 9) : rmIdx r c ≤ 90 := by
  unfold rmIdx
  omega

theorem rmIdx_inj {i j i' j' : Nat} (hj1 : 1 ≤ j) (hj9 : j ≤ 9) (hj1' : 1 ≤ j') (hj9' : j' ≤ 9)
    (h : rmIdx i j = rmIdx i' j') : i = i' ∧ j = j' := by
  unfold rmIdx at h
  omega

/-- The scan of `solve_board` lands inside the grid, at a position no
earlier than where it started; every cell it skipped is set; and it stops
on a set cell only at `(9, 9)`. -/
theorem findUnset_spec (b : board) : ∀ n r c, 1 ≤ r → r ≤ 9 → 1 ≤ c → c ≤ 9 →
    90 - rmIdx r c < n →
    (1 ≤ (findUnset b n r c).1 ∧ (findUnset b n r c).1 ≤ 9) ∧
    (1 ≤ (findUnset b n r c).2 ∧ (findUnset b n r c).2 ≤ 9) ∧
    rmIdx r c ≤ rmIdx (findUnset b n r c).1 (findUnset b n r c).2 ∧
    (∀ i j, 1 ≤ i → i ≤ 9 → 1 ≤ j → j ≤ 9 → rmIdx r c ≤ rmIdx i j →
      rmIdx i j < rmIdx (findUnset b n r c).1 (findUnset b n r c).2 → is_set b i j = true) ∧
    (is_set b (findUnset b n r c).1 (findUnset b n r c).2 = true →
      (findUnset b n r c).1 = 9 ∧ (findUnset b n r c).2 = 9) := by
  intro n
  induction n with
  | zero =>
    intro r c hr1 hr9 hc1 hc9 hfuel
    exact absurd hfuel (by omega)
  | succ n ih =>
    intro r c hr1 hr9 hc1 hc9 hfuel
    have hbody : findUnset b (n + 1) r c
        = if is_set b r c then
            (match next_cell r c with
             | some (r', c') => findUnset b n r' c'
             | none => (r, c))
          else (r, c) := rfl
    by_cases hset : is_set b r c = true
    · cases hnext : next_cell r c with
      | none =>
        have hstep : findUnset b (n + 1) r c = (r, c) := by
          rw [hbody, if_pos hset, hnext]
        rw [hstep]
        have h99 := next_cell_none_iff.mp hnext
        refine ⟨⟨hr1, hr9⟩, ⟨hc1, hc9⟩, le_refl _, ?_, fun _ => h99⟩
        intro i j _ _ _ _ hge hlt
        have hred : rmIdx (r, c).1 (r, c).2 = rmIdx r c := rfl
        omega
      | some p =>
        obtain ⟨r', c'⟩ := p
        have hstep : findUnset b (n + 1) r c = findUnset b n r' c' := by
          rw [hbody, if_pos hset, hnext]
        rw [hstep]
        obtain ⟨⟨hr1', hr9'⟩, ⟨hc1', hc9'⟩, hidx⟩ :=
          next_cell_some hr1 hr9 hc1 hc9 hnext
        have hfuel' : 90 - rmIdx r' c' < n := by
          have := rmIdx_le_90 hr9' hc9'
          omega
        obtain ⟨hb1, hb2, hb3, hb4, hb5⟩ := ih r' c' hr1' hr9' hc1' hc9' hfuel'
        refine ⟨hb1, hb2, by omega, ?_, hb5⟩
        intro i j hi1 hi9 hj1 hj9 hge hlt
        rcases Nat.eq_or_lt_of_le hge with heq | hgt
        · obtain ⟨rfl, rfl⟩ := rmIdx_inj hc1 hc9 hj1 hj9 heq
          exact hset
        · exact hb4 i j hi1 hi9 hj1 hj9 (by omega) hlt
    · have hstep : findUnset b (n + 1) r c = (r, c) := by
        rw [hbody, if_neg hset]
      rw [hstep]
      refine ⟨⟨hr1, hr9⟩, ⟨hc1, hc9⟩, le_refl _, ?_, ?_⟩
      · intro i j _ _ _ _ hge hlt
        have hred : rmIdx (r, c).1 (r, c).2 = rmIdx r c := rfl
        omega
      · intro hcontra
        exact absurd hcontra hset

end Sudoku

namespace Sudoku

/-! ## Unfolding equations for the solver -/

theorem tryVals_zero (go : board → Nat → Nat → Bool × board × Bool) (b : board)
    (r c prev : Nat) : tryVals go 0 b r c prev = (false, b, false) := rfl

theorem tryVals_eq (go : board → Nat → Nat → Bool × board × Bool) (n : Nat) (b : board)
    (r c prev : Nat) :
    tryVals go (n + 1) b r c prev =
      (fun v =>
        if v = -1 then (false, b, false)
        else
          (fun res =>
            if res.1 then res
            else
              (fun rest => (rest.1, rest.2.1, res.2.2 || rest.2.2))
                (tryVals go n (unset_cell res.2.1 r c v.toNat) r c (v.toNat + 1)))
            (go (set_cell b r c v.toNat) r c))
        (find_common_free (rowC b r) (colC b c) (sqC b (square r c)) prev) := rfl

theorem solveD_zero (b : board) (r c : Nat) : solveD 0 b r c = (false, b, false) := rfl

theorem solveD_eq (fuel : Nat) (b : board) (r c : Nat) :
    solveD (fuel + 1) b r c =
      if b.unset_cells = 0 then (true, b, false)
      else
        (fun p =>
          if is_set b p.1 p.2 then (true, b, true)
          else tryVals (solveD fuel) 9 b p.1 p.2 1)
        (findUnset b 81 r c) := rfl

/-! ## Failure restores the board -/

theorem restored_refl (b : board) : restored b b :=
  ⟨rfl, fun _ _ => rfl, fun _ _ _ => rfl, fun _ _ => rfl, fun _ _ => rfl, fun _ _ => rfl⟩

theorem restored_trans {b3 b2 b1 : board} (h32 : restored b3 b2) (h21 : restored b2 b1) :
    restored b3 b1 := by
  obtain ⟨ha1, ha2, ha3, ha4, ha5, ha6⟩ := h32
  obtain ⟨hb1, hb2, hb3, hb4, hb5, hb6⟩ := h21
  refine ⟨ha1.trans hb1, fun i j => (ha2 i j).trans (hb2 i j), ?_,
    fun i v => (ha4 i v).trans (hb4 i v), fun j v => (ha5 j v).trans (hb5 j v),
    fun s v => (ha6 s v).trans (hb6 s v)⟩
  intro i j hset
  rw [ha3 i j (by rw [hb2 i j]; exact hset), hb3 i j hset]


theorem freeIn_spec {r c s : candidates} {k : Nat} (h : freeIn r c s k = true) :
    used r k = false ∧ used c k = false ∧ used s k = false := by
  unfold freeIn at h
  rcases Bool.and_eq_true_iff.mp h with ⟨h12, h3⟩
  rcases Bool.and_eq_true_iff.mp h12 with ⟨h1, h2⟩
  exact ⟨by simpa using h1, by simpa using h2, by simpa using h3⟩

theorem tryVals_restore (go : board → Nat → Nat → Bool × board × Bool)
    (hgo : SolveSpec go) :
    ∀ n b r c prev, dims b → 1 ≤ r → r ≤ 9 → 1 ≤ c → c ≤ 9 → hv b r c = false →
    dims (tryVals go n b r c prev).2.1 ∧
    ((tryVals go n b r c prev).1 = false → restored (tryVals go n b r c prev).2.1 b) ∧
    (∀ i j, hv b i j = true →
      hv (tryVals go n b r c prev).2.1 i j = true ∧
      cv (tryVals go n b r c prev).2.1 i j = cv b i j) := by
  intro n
  induction n with
  | zero =>
    intro b r c prev hb hr1 hr9 hc1 hc9 hvrc
    rw [tryVals_zero]
    exact ⟨hb, fun _ => restored_refl b, fun i j h => ⟨h, rfl⟩⟩
  | succ n ih =>
    intro b r c prev hb hr1 hr9 hc1 hc9 hvrc
    rw [tryVals_eq]
    by_cases hneg : find_common_free (rowC b r) (colC b c) (sqC b (square r c)) prev = -1
    · rw [hneg]
      simp only [if_pos rfl]
      exact ⟨hb, fun _ => restored_refl b, fun i j h => ⟨h, rfl⟩⟩
    · obtain ⟨vn, hfcf, hmin, hv9, hfree, _⟩ := find_common_free_some hneg
      rw [hfcf]
      have hne : ((vn : Int)) ≠ -1 := by omega
      simp only [if_neg hne, Int.toNat_natCast]
      obtain ⟨hu1, hu2, hu3⟩ := freeIn_spec hfree
      have hsq9 := (square_bounds hr1 hr9 hc1 hc9).2
      have hb1 : dims (set_cell b r c vn) := dims_set_cell hb hr9 hc9 hsq9
      obtain ⟨hd2, hrest2, hpres2⟩ :=
        hgo (set_cell b r c vn) r c hb1 hr1 hr9 hc1 hc9
      by_cases hok : (go (set_cell b r c vn) r c).1 = true
      · simp only [if_pos hok]
        have hnotrc : ∀ i j, hv b i j = true → ¬(i = r ∧ j = c) := by
          rintro i j h ⟨rfl, rfl⟩
          rw [hvrc] at h
          cases h
        refine ⟨hd2, ?_, ?_⟩
        · intro hfail
          rw [hok] at hfail
          cases hfail
        · intro i j hset
          have h1 : hv (set_cell b r c vn) i j = true := by
            rw [hv_set_cell hb hr9 hc9, if_neg (hnotrc i j hset)]
            exact hset
          have h2 : cv (set_cell b r c vn) i j = cv b i j := by
            rw [cv_set_cell hb hr9 hc9, if_neg (hnotrc i j hset)]
          obtain ⟨hp1, hp2⟩ := hpres2 i j h1
          exact ⟨hp1, hp2.trans h2⟩
      · have hok' : (go (set_cell b r c vn) r c).1 = false := by
          cases h : (go (set_cell b r c vn) r c).1
          · rfl
          · exact absurd h hok
        simp only [if_neg hok]
        have hrst : restored (go (set_cell b r c vn) r c).2.1 (set_cell b r c vn) :=
          hrest2 hok'
        obtain ⟨hq1, hq2, hq3, hq4, hq5, hq6⟩ := hrst
        have hd3 : dims (unset_cell (go (set_cell b r c vn) r c).2.1 r c vn) :=
          dims_unset_cell hd2 hr9 hc9 hsq9
        have hv3 : ∀ i j,
            hv (unset_cell (go (set_cell b r c vn) r c).2.1 r c vn) i j = hv b i j := by
          intro i j
          rw [hv_unset_cell hd2 hr9 hc9]
          by_cases hij : i = r ∧ j = c
          · rw [if_pos hij, hij.1, hij.2, hvrc]
          · rw [if_neg hij, hq2 i j, hv_set_cell hb hr9 hc9, if_neg hij]
        have hcv3 : ∀ i j, hv b i j = true →
            cv (unset_cell (go (set_cell b r c vn) r c).2.1 r c vn) i j = cv b i j := by
          intro i j hset
          have hij : ¬(i = r ∧ j = c) := by
            rintro ⟨rfl, rfl⟩
            rw [hvrc] at hset
            cases hset
          rw [cv_unset_cell hd2 hr9 hc9, if_neg hij]
          have hset1 : hv (set_cell b r c vn) i j = true := by
            rw [hv_set_cell hb hr9 hc9, if_neg hij]
            exact hset
          rw [hq3 i j hset1, cv_set_cell hb hr9 hc9, if_neg hij]
        have hru3 : ∀ i w,
            rused (unset_cell (go (set_cell b r c vn) r c).2.1 r c vn) i w
              = rused b i w := by
          intro i w
          rw [rused_unset_cell hd2 hr9 hv9, hq4 i w, rused_set_cell hb hr9 hv9]
          by_cases hiw : i = r ∧ w = vn
          · rw [if_pos hiw, hiw.1, hiw.2]
            exact hu1.symm
          · rw [if_neg hiw, if_neg hiw]
        have hcu3 : ∀ j w,
            cused (unset_cell (go (set_cell b r c vn) r c).2.1 r c vn) j w
              = cused b j w := by
          intro j w
          rw [cused_unset_cell hd2 hc9 hv9, hq5 j w, cused_set_cell hb hc9 hv9]
          by_cases hjw : j = c ∧ w = vn
          · rw [if_pos hjw, hjw.1, hjw.2]
            exact hu2.symm
          · rw [if_neg hjw, if_neg hjw]
        have hsu3 : ∀ s w,
            sqused (unset_cell (go (set_cell b r c vn) r c).2.1 r c vn) s w
              = sqused b s w := by
          intro s w
          rw [sqused_unset_cell hd2 hsq9 hv9, hq6 s w, sqused_set_cell hb hsq9 hv9]
          by_cases hsw : s = square r c ∧ w = vn
          · rw [if_pos hsw, hsw.1, hsw.2]
            exact hu3.symm
          · rw [if_neg hsw, if_neg hsw]
        have hcnt3 :
            (unset_cell (go (set_cell b r c vn) r c).2.1 r c vn).unset_cells
              = b.unset_cells := by
          rw [unset_cells_unset_cell, hq1, unset_cells_set_cell]
          omega
        have hrst3 : restored (unset_cell (go (set_cell b r c vn) r c).2.1 r c vn) b :=
          ⟨hcnt3, hv3, hcv3, hru3, hcu3, hsu3⟩
        obtain ⟨hw1, hw2, hw3⟩ := ih (unset_cell (go (set_cell b r c vn) r c).2.1 r c vn)
          r c (vn + 1) hd3 hr1 hr9 hc1 hc9 (by rw [hv3 r c]; exact hvrc)
        refine ⟨hw1, ?_, ?_⟩
        · intro hfail
          exact restored_trans (hw2 hfail) hrst3
        · intro i j hset
          obtain ⟨hx1, hx2⟩ := hw3 i j (by rw [hv3 i j]; exact hset)
          exact ⟨hx1, hx2.trans (hcv3 i j hset)⟩

theorem is_set_eq_hv (b : board) (r c : Nat) : is_set b r c = hv b r c := rfl

theorem solveD_spec : ∀ fuel, SolveSpec (solveD fuel) := by
  intro fuel
  induction fuel with
  | zero =>
    intro b r c hb hr1 hr9 hc1 hc9
    rw [solveD_zero]
    exact ⟨hb, fun _ => restored_refl b, fun i j h => ⟨h, rfl⟩⟩
  | succ fuel ih =>
    intro b r c hb hr1 hr9 hc1 hc9
    rw [solveD_eq]
    by_cases h0 : b.unset_cells = 0
    · simp only [if_pos h0]
      refine ⟨hb, ?_, ?_⟩
      · intro h
        cases h
      · intro i j h
        exact ⟨h, by trivial⟩
    · simp only [if_neg h0]
      have hfuel : 90 - rmIdx r c < 81 := by
        unfold rmIdx
        omega
      obtain ⟨⟨hp1, hp2⟩, ⟨hp3, hp4⟩, _, _, _⟩ :=
        findUnset_spec b 81 r c hr1 hr9 hc1 hc9 hfuel
      by_cases hset : is_set b (findUnset b 81 r c).1 (findUnset b 81 r c).2 = true
      · simp only [if_pos hset]
        refine ⟨hb, ?_, ?_⟩
        · intro h
          cases h
        · intro i j h
          exact ⟨h, by trivial⟩
      · simp only [if_neg hset]
        have hvp : hv b (findUnset b 81 r c).1 (findUnset b 81 r c).2 = false := by
          rw [← is_set_eq_hv]
          cases h : is_set b (findUnset b 81 r c).1 (findUnset b 81 r c).2
          · rfl
          · exact absurd h hset
        exact tryVals_restore (solveD fuel) ih 9 b
          (findUnset b 81 r c).1 (findUnset b 81 r c).2 1 hb hp1 hp2 hp3 hp4 hvp

end Sudoku

namespace Sudoku

/-! ## The board invariant and its preservation -/

theorem Inv_init : Inv init_board := by decide

theorem pair_ne_iff {r c : Nat} (x : Nat × Nat) (h : x ≠ (r, c)) : ¬(x.1 = r ∧ x.2 = c) := by
  rintro ⟨h1, h2⟩
  apply h
  obtain ⟨a, b⟩ := x
  simp only at h1 h2
  rw [h1, h2]

theorem holds_set_cell {b : board} (hb : dims b) {r c : Nat} (hr9 : r ≤ 9) (hc9 : c ≤ 9)
    (v : Nat) (i j w : Nat) :
    holds (set_cell b r c v) i j w = if i = r ∧ j = c then (v == w) else holds b i j w := by
  unfold holds
  rw [hv_set_cell hb hr9 hc9, cv_set_cell hb hr9 hc9]
  by_cases hij : i = r ∧ j = c
  · rw [if_pos hij, if_pos hij, if_pos hij, Bool.true_and]
  · rw [if_neg hij, if_neg hij, if_neg hij]

theorem holds_unset_cell {b : board} (hb : dims b) {r c : Nat} (hr9 : r ≤ 9) (hc9 : c ≤ 9)
    (v : Nat) (i j w : Nat) :
    holds (unset_cell b r c v) i j w = if i = r ∧ j = c then false else holds b i j w := by
  unfold holds
  rw [hv_unset_cell hb hr9 hc9, cv_unset_cell hb hr9 hc9]
  by_cases hij : i = r ∧ j = c
  · rw [if_pos hij, if_pos hij, if_pos hij, Bool.false_and]
  · rw [if_neg hij, if_neg hij, if_neg hij]

theorem holds_of_unset {b : board} {r c : Nat} (h : hv b r c = false) (w : Nat) :
    holds b r c w = false := by
  unfold holds
  rw [h, Bool.false_and]

end Sudoku

namespace Sudoku

theorem holds_beq {b : board} {r c v : Nat} (h : holds b r c v = true) :
    hv b r c = true ∧ cv b r c = v := by
  unfold holds at h
  rcases Bool.and_eq_true_iff.mp h with ⟨h1, h2⟩
  exact ⟨h1, by simpa using h2⟩

theorem holds_self {b : board} {r c v : Nat} (h1 : hv b r c = true) (h2 : cv b r c = v) :
    holds b r c v = true := by
  unfold holds
  rw [h1, h2, Bool.true_and]
  simp

/-- `set_cell` adds one to the count of `(i = r, w = v)` and changes no
other row count. -/
theorem rowCount_set_cell {b : board} (hb : dims b) {r c v : Nat}
    (hr9 : r ≤ 9) (hc1 : 1 ≤ c) (hc9 : c ≤ 9) (hunset : hv b r c = false) (i w : Nat) :
    rowCount (set_cell b r c v) i w
      = if i = r ∧ w = v then rowCount b i w + 1 else rowCount b i w := by
  unfold rowCount
  by_cases hir : i = r
  · have hupd := countP_update nums nums_nodup c (mem_nums.mpr ⟨hc1, hc9⟩)
      (fun j => holds b i j w) (fun j => holds (set_cell b r c v) i j w)
      (by
        intro x hx hne
        show holds (set_cell b r c v) i x w = holds b i x w
        rw [holds_set_cell hb hr9 hc9, if_neg (fun hh => hne hh.2)])
    have hupd' : (if holds b i c w = true then 1 else 0)
        + List.countP (fun j => holds (set_cell b r c v) i j w) nums
        = (if holds (set_cell b r c v) i c w = true then 1 else 0)
          + List.countP (fun j => holds b i j w) nums := hupd
    have hpc : holds b i c w = false := by
      rw [hir]
      exact holds_of_unset hunset w
    have hqc : holds (set_cell b r c v) i c w = (v == w) := by
      rw [holds_set_cell hb hr9 hc9, if_pos ⟨hir, rfl⟩]
    rw [hpc, hqc] at hupd'
    by_cases hwv : w = v
    · rw [if_pos ⟨hir, hwv⟩]
      have hbeq : (v == w) = true := by
        rw [hwv]
        simp
      rw [hbeq] at hupd'
      have e1 : (if false = true then 1 else 0) = 0 := rfl
      have e2 : (if true = true then 1 else 0) = 1 := rfl
      rw [e1, e2] at hupd'
      omega
    · rw [if_neg (fun hh => hwv hh.2)]
      have hbeq : (v == w) = false := beq_eq_false_iff_ne.mpr (fun e => hwv e.symm)
      rw [hbeq] at hupd'
      have e1 : (if false = true then 1 else 0) = 0 := rfl
      rw [e1] at hupd'
      omega
  · rw [if_neg (fun hh => hir hh.1)]
    apply List.countP_congr
    intro x hx
    show holds (set_cell b r c v) i x w = true ↔ holds b i x w = true
    rw [holds_set_cell hb hr9 hc9, if_neg (fun hh => hir hh.1)]

theorem colCount_set_cell {b : board} (hb : dims b) {r c v : Nat}
    (hr1 : 1 ≤ r) (hr9 : r ≤ 9) (hc9 : c ≤ 9) (hunset : hv b r c = false) (j w : Nat) :
    colCount (set_cell b r c v) j w
      = if j = c ∧ w = v then colCount b j w + 1 else colCount b j w := by
  unfold colCount
  by_cases hjc : j = c
  · have hupd := countP_update nums nums_nodup r (mem_nums.mpr ⟨hr1, hr9⟩)
      (fun i => holds b i j w) (fun i => holds (set_cell b r c v) i j w)
      (by
        intro x hx hne
        show holds (set_cell b r c v) x j w = holds b x j w
        rw [holds_set_cell hb hr9 hc9, if_neg (fun hh => hne hh.1)])
    have hupd' : (if holds b r j w = true then 1 else 0)
        + List.countP (fun i => holds (set_cell b r c v) i j w) nums
        = (if holds (set_cell b r c v) r j w = true then 1 else 0)
          + List.countP (fun i => holds b i j w) nums := hupd
    have hpc : holds b r j w = false := by
      rw [hjc]
      exact holds_of_unset hunset w
    have hqc : holds (set_cell b r c v) r j w = (v == w) := by
      rw [holds_set_cell hb hr9 hc9, if_pos ⟨rfl, hjc⟩]
    rw [hpc, hqc] at hupd'
    by_cases hwv : w = v
    · rw [if_pos ⟨hjc, hwv⟩]
      have hbeq : (v == w) = true := by
        rw [hwv]
        simp
      rw [hbeq] at hupd'
      have e1 : (if false = true then 1 else 0) = 0 := rfl
      have e2 : (if true = true then 1 else 0) = 1 := rfl
      rw [e1, e2] at hupd'
      omega
    · rw [if_neg (fun hh => hwv hh.2)]
      have hbeq : (v == w) = false := beq_eq_false_iff_ne.mpr (fun e => hwv e.symm)
      rw [hbeq] at hupd'
      have e1 : (if false = true then 1 else 0) = 0 := rfl
      rw [e1] at hupd'
      omega
  · rw [if_neg (fun hh => hjc hh.1)]
    apply List.countP_congr
    intro x hx
    show holds (set_cell b r c v) x j w = true ↔ holds b x j w = true
    rw [holds_set_cell hb hr9 hc9, if_neg (fun hh => hjc hh.2)]

theorem sqCount_set_cell {b : board} (hb : dims b) {r c v : Nat}
    (hr1 : 1 ≤ r) (hr9 : r ≤ 9) (hc1 : 1 ≤ c) (hc9 : c ≤ 9)
    (hunset : hv b r c = false) (s w : Nat) :
    sqCount (set_cell b r c v) s w
      = if s = square r c ∧ w = v then sqCount b s w + 1 else sqCount b s w := by
  unfold sqCount
  have hrcmem : (r, c) ∈ allPos := mem_allPos.mpr ⟨⟨hr1, hr9⟩, ⟨hc1, hc9⟩⟩
  have hupd := countP_update allPos allPos_nodup (r, c) hrcmem
    (fun p => square p.1 p.2 == s && holds b p.1 p.2 w)
    (fun p => square p.1 p.2 == s && holds (set_cell b r c v) p.1 p.2 w)
    (by
      intro x hx hne
      show (square x.1 x.2 == s && holds (set_cell b r c v) x.1 x.2 w) = _
      rw [holds_set_cell hb hr9 hc9, if_neg (pair_ne_iff x hne)])
  have hupd' : (if (square r c == s && holds b r c w) = true then 1 else 0)
      + List.countP (fun p => square p.1 p.2 == s && holds (set_cell b r c v) p.1 p.2 w) allPos
      = (if (square r c == s && holds (set_cell b r c v) r c w) = true then 1 else 0)
        + List.countP (fun p => square p.1 p.2 == s && holds b p.1 p.2 w) allPos := hupd
  have hpc : holds b r c w = false := holds_of_unset hunset w
  have hqc : holds (set_cell b r c v) r c w = (v == w) := by
    rw [holds_set_cell hb hr9 hc9, if_pos ⟨rfl, rfl⟩]
  rw [hpc, hqc, Bool.and_false] at hupd'
  have e1 : (if false = true then 1 else 0) = 0 := rfl
  rw [e1] at hupd'
  by_cases hs : s = square r c
  · have hsbeq : (square r c == s) = true := by
      rw [hs]
      simp
    rw [hsbeq, Bool.true_and] at hupd'
    by_cases hwv : w = v
    · rw [if_pos ⟨hs, hwv⟩]
      have hbeq : (v == w) = true := by
        rw [hwv]
        simp
      rw [hbeq] at hupd'
      have e2 : (if true = true then 1 else 0) = 1 := rfl
      rw [e2] at hupd'
      omega
    · rw [if_neg (fun hh => hwv hh.2)]
      have hbeq : (v == w) = false := beq_eq_false_iff_ne.mpr (fun e => hwv e.symm)
      rw [hbeq] at hupd'
      rw [e1] at hupd'
      omega
  · rw [if_neg (fun hh => hs hh.1)]
    have hsbeq : (square r c == s) = false := beq_eq_false_iff_ne.mpr (fun e => hs e.symm)
    rw [hsbeq, Bool.false_and] at hupd'
    rw [e1] at hupd'
    omega

theorem unsetCount_set_cell {b : board} (hb : dims b) {r c : Nat} (v : Nat)
    (hr1 : 1 ≤ r) (hr9 : r ≤ 9) (hc1 : 1 ≤ c) (hc9 : c ≤ 9)
    (hunset : hv b r c = false) :
    unsetCount (set_cell b r c v) + 1 = unsetCount b := by
  unfold unsetCount
  have hrcmem : (r, c) ∈ allPos := mem_allPos.mpr ⟨⟨hr1, hr9⟩, ⟨hc1, hc9⟩⟩
  have hupd := countP_update allPos allPos_nodup (r, c) hrcmem
    (fun p => !hv b p.1 p.2) (fun p => !hv (set_cell b r c v) p.1 p.2)
    (by
      intro x hx hne
      show (!hv (set_cell b r c v) x.1 x.2) = (!hv b x.1 x.2)
      rw [hv_set_cell hb hr9 hc9, if_neg (pair_ne_iff x hne)])
  have hupd' : (if (!hv b r c) = true then 1 else 0)
      + List.countP (fun p => !hv (set_cell b r c v) p.1 p.2) allPos
      = (if (!hv (set_cell b r c v) r c) = true then 1 else 0)
        + List.countP (fun p => !hv b p.1 p.2) allPos := hupd
  have h1 : hv (set_cell b r c v) r c = true := by
    rw [hv_set_cell hb hr9 hc9, if_pos ⟨rfl, rfl⟩]
  rw [hunset, h1] at hupd'
  have e1 : (if (!false) = true then 1 else 0) = 1 := rfl
  have e2 : (if (!true) = true then 1 else 0) = 0 := rfl
  rw [e1, e2] at hupd'
  omega

theorem Inv_set_cell {b : board} (hInv : Inv b) {r c v : Nat}
    (hr1 : 1 ≤ r) (hr9 : r ≤ 9) (hc1 : 1 ≤ c) (hc9 : c ≤ 9) (hv1 : 1 ≤ v) (hv9 : v ≤ 9)
    (hunset : hv b r c = false)
    (hru : rused b r v = false) (hcu : cused b c v = false)
    (hsu : sqused b (square r c) v = false) :
    Inv (set_cell b r c v) := by
  obtain ⟨hb, hcnt, hrow, hcol, hsq, hval⟩ := hInv
  have hsq9 := (square_bounds hr1 hr9 hc1 hc9).2
  refine ⟨dims_set_cell hb hr9 hc9 hsq9, ?_, ?_, ?_, ?_, ?_⟩
  · rw [unset_cells_set_cell, hcnt]
    have := unsetCount_set_cell hb v hr1 hr9 hc1 hc9 hunset
    omega
  · intro i hi w hw
    rw [rowCount_set_cell hb hr9 hc1 hc9 hunset, rused_set_cell hb hr9 hv9]
    by_cases hiw : i = r ∧ w = v
    · rw [if_pos hiw, if_pos hiw, if_pos rfl]
      have h0 : rowCount b i w = 0 := by
        rw [hrow i hi w hw, hiw.1, hiw.2, hru]
        rfl
      omega
    · rw [if_neg hiw, if_neg hiw]
      exact hrow i hi w hw
  · intro j hj w hw
    rw [colCount_set_cell hb hr1 hr9 hc9 hunset, cused_set_cell hb hc9 hv9]
    by_cases hjw : j = c ∧ w = v
    · rw [if_pos hjw, if_pos hjw, if_pos rfl]
      have h0 : colCount b j w = 0 := by
        rw [hcol j hj w hw, hjw.1, hjw.2, hcu]
        rfl
      omega
    · rw [if_neg hjw, if_neg hjw]
      exact hcol j hj w hw
  · intro s hs w hw
    rw [sqCount_set_cell hb hr1 hr9 hc1 hc9 hunset, sqused_set_cell hb hsq9 hv9]
    by_cases hsw : s = square r c ∧ w = v
    · rw [if_pos hsw, if_pos hsw, if_pos rfl]
      have h0 : sqCount b s w = 0 := by
        rw [hsq s hs w hw, hsw.1, hsw.2, hsu]
        rfl
      omega
    · rw [if_neg hsw, if_neg hsw]
      exact hsq s hs w hw
  · intro i hi j hj h
    rw [hv_set_cell hb hr9 hc9] at h
    rw [cv_set_cell hb hr9 hc9]
    by_cases hij : i = r ∧ j = c
    · rw [if_pos hij]
      exact ⟨hv1, hv9⟩
    · rw [if_neg hij]
      rw [if_neg hij] at h
      exact hval i hi j hj h

end Sudoku

namespace Sudoku

theorem rowCount_unset_cell {b : board} (hb : dims b) {r c v : Nat}
    (hr9 : r ≤ 9) (hc1 : 1 ≤ c) (hc9 : c ≤ 9) (hset : holds b r c v = true) (i w : Nat) :
    if i = r ∧ w = v then rowCount (unset_cell b r c v) i w + 1 = rowCount b i w
    else rowCount (unset_cell b r c v) i w = rowCount b i w := by
  obtain ⟨hvset, hcv⟩ := holds_beq hset
  by_cases hir : i = r
  · have hupd := countP_update nums nums_nodup c (mem_nums.mpr ⟨hc1, hc9⟩)
      (fun j => holds b i j w) (fun j => holds (unset_cell b r c v) i j w)
      (by
        intro x hx hne
        show holds (unset_cell b r c v) i x w = holds b i x w
        rw [holds_unset_cell hb hr9 hc9, if_neg (fun hh => hne hh.2)])
    have hupd' : (if holds b i c w = true then 1 else 0)
        + List.countP (fun j => holds (unset_cell b r c v) i j w) nums
        = (if holds (unset_cell b r c v) i c w = true then 1 else 0)
          + List.countP (fun j => holds b i j w) nums := hupd
    have hqc : holds (unset_cell b r c v) i c w = false := by
      rw [holds_unset_cell hb hr9 hc9, if_pos ⟨hir, rfl⟩]
    rw [hqc] at hupd'
    have e1 : (if false = true then 1 else 0) = 0 := rfl
    rw [e1] at hupd'
    by_cases hwv : w = v
    · rw [if_pos ⟨hir, hwv⟩]
      have hpc : holds b i c w = true := by
        rw [hir, hwv]
        exact hset
      rw [hpc] at hupd'
      have e2 : (if true = true then 1 else 0) = 1 := rfl
      rw [e2] at hupd'
      show rowCount (unset_cell b r c v) i w + 1 = rowCount b i w
      unfold rowCount
      omega
    · rw [if_neg (fun hh => hwv hh.2)]
      have hpc : holds b i c w = false := by
        unfold holds
        rw [hir, hvset, hcv, Bool.true_and]
        exact beq_eq_false_iff_ne.mpr (fun e => hwv e.symm)
      rw [hpc, e1] at hupd'
      show rowCount (unset_cell b r c v) i w = rowCount b i w
      unfold rowCount
      omega
  · rw [if_neg (fun hh => hir hh.1)]
    show rowCount (unset_cell b r c v) i w = rowCount b i w
    unfold rowCount
    apply List.countP_congr
    intro x hx
    show holds (unset_cell b r c v) i x w = true ↔ holds b i x w = true
    rw [holds_unset_cell hb hr9 hc9, if_neg (fun hh => hir hh.1)]

theorem colCount_unset_cell {b : board} (hb : dims b) {r c v : Nat}
    (hr1 : 1 ≤ r) (hr9 : r ≤ 9) (hc9 : c ≤ 9) (hset : holds b r c v = true) (j w : Nat) :
    if j = c ∧ w = v then colCount (unset_cell b r c v) j w + 1 = colCount b j w
    else colCount (unset_cell b r c v) j w = colCount b j w := by
  obtain ⟨hvset, hcv⟩ := holds_beq hset
  by_cases hjc : j = c
  · have hupd := countP_update nums nums_nodup r (mem_nums.mpr ⟨hr1, hr9⟩)
      (fun i => holds b i j w) (fun i => holds (unset_cell b r c v) i j w)
      (by
        intro x hx hne
        show holds (unset_cell b r c v) x j w = holds b x j w
        rw [holds_unset_cell hb hr9 hc9, if_neg (fun hh => hne hh.1)])
    have hupd' : (if holds b r j w = true then 1 else 0)
        + List.countP (fun i => holds (unset_cell b r c v) i j w) nums
        = (if holds (unset_cell b r c v) r j w = true then 1 else 0)
          + List.countP (fun i => holds b i j w) nums := hupd
    have hqc : holds (unset_cell b r c v) r j w = false := by
      rw [holds_unset_cell hb hr9 hc9, if_pos ⟨rfl, hjc⟩]
    rw [hqc] at hupd'
    have e1 : (if false = true then 1 else 0) = 0 := rfl
    rw [e1] at hupd'
    by_cases hwv : w = v
    · rw [if_pos ⟨hjc, hwv⟩]
      have hpc : holds b r j w = true := by
        rw [hjc, hwv]
        exact hset
      rw [hpc] at hupd'
      have e2 : (if true = true then 1 else 0) = 1 := rfl
      rw [e2] at hupd'
      show colCount (unset_cell b r c v) j w + 1 = colCount b j w
      unfold colCount
      omega
    · rw [if_neg (fun hh => hwv hh.2)]
      have hpc : holds b r j w = false := by
        unfold holds
        rw [hjc, hvset, hcv, Bool.true_and]
        exact beq_eq_false_iff_ne.mpr (fun e => hwv e.symm)
      rw [hpc, e1] at hupd'
      show colCount (unset_cell b r c v) j w = colCount b j w
      unfold colCount
      omega
  · rw [if_neg (fun hh => hjc hh.1)]
    show colCount (unset_cell b r c v) j w = colCount b j w
    unfold colCount
    apply List.countP_congr
    intro x hx
    show holds (unset_cell b r c v) x j w = true ↔ holds b x j w = true
    rw [holds_unset_cell hb hr9 hc9, if_neg (fun hh => hjc hh.2)]

theorem sqCount_unset_cell {b : board} (hb : dims b) {r c v : Nat}
    (hr1 : 1 ≤ r) (hr9 : r ≤ 9) (hc1 : 1 ≤ c) (hc9 : c ≤ 9)
    (hset : holds b r c v = true) (s w : Nat) :
    if s = square r c ∧ w = v then sqCount (unset_cell b r c v) s w + 1 = sqCount b s w
    else sqCount (unset_cell b r c v) s w = sqCount b s w := by
  obtain ⟨hvset, hcv⟩ := holds_beq hset
  have hrcmem : (r, c) ∈ allPos := mem_allPos.mpr ⟨⟨hr1, hr9⟩, ⟨hc1, hc9⟩⟩
  have hupd := countP_update allPos allPos_nodup (r, c) hrcmem
    (fun p => square p.1 p.2 == s && holds b p.1 p.2 w)
    (fun p => square p.1 p.2 == s && holds (unset_cell b r c v) p.1 p.2 w)
    (by
      intro x hx hne
      show (square x.1 x.2 == s && holds (unset_cell b r c v) x.1 x.2 w) = _
      rw [holds_unset_cell hb hr9 hc9, if_neg (pair_ne_iff x hne)])
  have hupd' : (if (square r c == s && holds b r c w) = true then 1 else 0)
      + List.countP
          (fun p => square p.1 p.2 == s && holds (unset_cell b r c v) p.1 p.2 w) allPos
      = (if (square r c == s && holds (unset_cell b r c v) r c w) = true then 1 else 0)
        + List.countP (fun p => square p.1 p.2 == s && holds b p.1 p.2 w) allPos := hupd
  have hqc : holds (unset_cell b r c v) r c w = false := by
    rw [holds_unset_cell hb hr9 hc9, if_pos ⟨rfl, rfl⟩]
  rw [hqc, Bool.and_false] at hupd'
  have e1 : (if false = true then 1 else 0) = 0 := rfl
  rw [e1] at hupd'
  by_cases hs : s = square r c
  · have hsbeq : (square r c == s) = true := by
      rw [hs]
      simp
    rw [hsbeq, Bool.true_and] at hupd'
    by_cases hwv : w = v
    · rw [if_pos ⟨hs, hwv⟩]
      have hpc : holds b r c w = true := by
        rw [hwv]
        exact hset
      rw [hpc] at hupd'
      have e2 : (if true = true then 1 else 0) = 1 := rfl
      rw [e2] at hupd'
      show sqCount (unset_cell b r c v) s w + 1 = sqCount b s w
      unfold sqCount
      omega
    · rw [if_neg (fun hh => hwv hh.2)]
      have hpc : holds b r c w = false := by
        unfold holds
        rw [hvset, hcv, Bool.true_and]
        exact beq_eq_false_iff_ne.mpr (fun e => hwv e.symm)
      rw [hpc, e1] at hupd'
      show sqCount (unset_cell b r c v) s w = sqCount b s w
      unfold sqCount
      omega
  · rw [if_neg (fun hh => hs hh.1)]
    have hsbeq : (square r c == s) = false := beq_eq_false_iff_ne.mpr (fun e => hs e.symm)
    rw [hsbeq, Bool.false_and, e1] at hupd'
    show sqCount (unset_cell b r c v) s w = sqCount b s w
    unfold sqCount
    omega

theorem unsetCount_unset_cell {b : board} (hb : dims b) {r c : Nat} (v : Nat)
    (hr1 : 1 ≤ r) (hr9 : r ≤ 9) (hc1 : 1 ≤ c) (hc9 : c ≤ 9)
    (hvset : hv b r c = true) :
    unsetCount (unset_cell b r c v) = unsetCount b + 1 := by
  unfold unsetCount
  have hrcmem : (r, c) ∈ allPos := mem_allPos.mpr ⟨⟨hr1, hr9⟩, ⟨hc1, hc9⟩⟩
  have hupd := countP_update allPos allPos_nodup (r, c) hrcmem
    (fun p => !hv b p.1 p.2) (fun p => !hv (unset_cell b r c v) p.1 p.2)
    (by
      intro x hx hne
      show (!hv (unset_cell b r c v) x.1 x.2) = (!hv b x.1 x.2)
      rw [hv_unset_cell hb hr9 hc9, if_neg (pair_ne_iff x hne)])
  have hupd' : (if (!hv b r c) = true then 1 else 0)
      + List.countP (fun p => !hv (unset_cell b r c v) p.1 p.2) allPos
      = (if (!hv (unset_cell b r c v) r c) = true then 1 else 0)
        + List.countP (fun p => !hv b p.1 p.2) allPos := hupd
  have h1 : hv (unset_cell b r c v) r c = false := by
    rw [hv_unset_cell hb hr9 hc9, if_pos ⟨rfl, rfl⟩]
  rw [hvset, h1] at hupd'
  have e1 : (if (!false) = true then 1 else 0) = 1 := rfl
  have e2 : (if (!true) = true then 1 else 0) = 0 := rfl
  rw [e1, e2] at hupd'
  omega

theorem rused_true_of_holds {b : board} (hInv : Inv b) {r c v : Nat}
    (hr1 : 1 ≤ r) (hr9 : r ≤ 9) (hc1 : 1 ≤ c) (hc9 : c ≤ 9) (hv1 : 1 ≤ v) (hv9 : v ≤ 9)
    (hset : holds b r c v = true) :
    rused b r v = true ∧ cused b c v = true ∧ sqused b (square r c) v = true := by
  obtain ⟨hb, hcnt, hrow, hcol, hsq, hval⟩ := hInv
  have hr := hrow r (mem_nums.mpr ⟨hr1, hr9⟩) v (mem_nums.mpr ⟨hv1, hv9⟩)
  have hc := hcol c (mem_nums.mpr ⟨hc1, hc9⟩) v (mem_nums.mpr ⟨hv1, hv9⟩)
  have hsq1 := (square_bounds hr1 hr9 hc1 hc9).1
  have hsq9 := (square_bounds hr1 hr9 hc1 hc9).2
  have hs := hsq (square r c) (mem_nums.mpr ⟨hsq1, hsq9⟩) v (mem_nums.mpr ⟨hv1, hv9⟩)
  have hrpos : 0 < rowCount b r v := by
    apply List.countP_pos_iff.mpr
    exact ⟨c, mem_nums.mpr ⟨hc1, hc9⟩, hset⟩
  have hcpos : 0 < colCount b c v := by
    apply List.countP_pos_iff.mpr
    exact ⟨r, mem_nums.mpr ⟨hr1, hr9⟩, hset⟩
  have hspos : 0 < sqCount b (square r c) v := by
    apply List.countP_pos_iff.mpr
    refine ⟨(r, c), mem_allPos.mpr ⟨⟨hr1, hr9⟩, ⟨hc1, hc9⟩⟩, ?_⟩
    show (square r c == square r c && holds b r c v) = true
    rw [hset, Bool.and_true]
    simp
  refine ⟨?_, ?_, ?_⟩
  · cases h : rused b r v
    · rw [h] at hr
      rw [hr] at hrpos
      cases hrpos
    · rfl
  · cases h : cused b c v
    · rw [h] at hc
      rw [hc] at hcpos
      cases hcpos
    · rfl
  · cases h : sqused b (square r c) v
    · rw [h] at hs
      rw [hs] at hspos
      cases hspos
    · rfl

theorem Inv_unset_cell {b : board} (hInv : Inv b) {r c v : Nat}
    (hr1 : 1 ≤ r) (hr9 : r ≤ 9) (hc1 : 1 ≤ c) (hc9 : c ≤ 9) (hv1 : 1 ≤ v) (hv9 : v ≤ 9)
    (hset : holds b r c v = true) :
    Inv (unset_cell b r c v) := by
  obtain ⟨hru, hcu, hsu⟩ := rused_true_of_holds hInv hr1 hr9 hc1 hc9 hv1 hv9 hset
  obtain ⟨hb, hcnt, hrow, hcol, hsq, hval⟩ := hInv
  have hvset := (holds_beq hset).1
  have hsq9 := (square_bounds hr1 hr9 hc1 hc9).2
  refine ⟨dims_unset_cell hb hr9 hc9 hsq9, ?_, ?_, ?_, ?_, ?_⟩
  · rw [unset_cells_unset_cell, hcnt,
      unsetCount_unset_cell hb v hr1 hr9 hc1 hc9 hvset]
    omega
  · intro i hi w hw
    have hpt := rowCount_unset_cell hb hr9 hc1 hc9 hset i w
    rw [rused_unset_cell hb hr9 hv9]
    by_cases hiw : i = r ∧ w = v
    · rw [if_pos hiw] at hpt
      rw [if_pos hiw]
      have e0 : (if false = true then 1 else 0) = 0 := rfl
      rw [e0]
      have h1 : rowCount b i w = 1 := by
        rw [hrow i hi w hw, hiw.1, hiw.2, hru]
        rfl
      omega
    · rw [if_neg hiw] at hpt
      rw [if_neg hiw, hpt]
      exact hrow i hi w hw
  · intro j hj w hw
    have hpt := colCount_unset_cell hb hr1 hr9 hc9 hset j w
    rw [cused_unset_cell hb hc9 hv9]
    by_cases hjw : j = c ∧ w = v
    · rw [if_pos hjw] at hpt
      rw [if_pos hjw]
      have e0 : (if false = true then 1 else 0) = 0 := rfl
      rw [e0]
      have h1 : colCount b j w = 1 := by
        rw [hcol j hj w hw, hjw.1, hjw.2, hcu]
        rfl
      omega
    · rw [if_neg hjw] at hpt
      rw [if_neg hjw, hpt]
      exact hcol j hj w hw
  · intro s hs w hw
    have hpt := sqCount_unset_cell hb hr1 hr9 hc1 hc9 hset s w
    rw [sqused_unset_cell hb hsq9 hv9]
    by_cases hsw : s = square r c ∧ w = v
    · rw [if_pos hsw] at hpt
      rw [if_pos hsw]
      have e0 : (if false = true then 1 else 0) = 0 := rfl
      rw [e0]
      have h1 : sqCount b s w = 1 := by
        rw [hsq s hs w hw, hsw.1, hsw.2, hsu]
        rfl
      omega
    · rw [if_neg hsw] at hpt
      rw [if_neg hsw, hpt]
      exact hsq s hs w hw
  · intro i hi j hj h
    rw [hv_unset_cell hb hr9 hc9] at h
    rw [cv_unset_cell hb hr9 hc9]
    by_cases hij : i = r ∧ j = c
    · rw [if_pos hij] at h
      cases h
    · rw [if_neg hij]
      rw [if_neg hij] at h
      exact hval i hi j hj h

end Sudoku

namespace Sudoku

/-! ## The main invariant induction over the search -/

theorem tryVals_step_none (go : board → Nat → Nat → Bool × board × Bool) (n : Nat)
    (b : board) (r c prev : Nat)
    (h : find_common_free (rowC b r) (colC b c) (sqC b (square r c)) prev = -1) :
    tryVals go (n + 1) b r c prev = (false, b, false) := by
  rw [tryVals_eq, h]
  rfl

theorem tryVals_step_found (go : board → Nat → Nat → Bool × board × Bool) (n : Nat)
    (b : board) (r c prev : Nat) {vn : Nat}
    (h : find_common_free (rowC b r) (colC b c) (sqC b (square r c)) prev = (vn : Int)) :
    tryVals go (n + 1) b r c prev =
      (if (go (set_cell b r c vn) r c).1 = true then go (set_cell b r c vn) r c
       else
         ((tryVals go n (unset_cell (go (set_cell b r c vn) r c).2.1 r c vn) r c (vn + 1)).1,
          (tryVals go n (unset_cell (go (set_cell b r c vn) r c).2.1 r c vn) r c (vn + 1)).2.1,
          (go (set_cell b r c vn) r c).2.2
            || (tryVals go n (unset_cell (go (set_cell b r c vn) r c).2.1 r c vn) r c
                  (vn + 1)).2.2)) := by
  rw [tryVals_eq, h]
  show (if (vn : Int) = -1 then ((false, b, false) : Bool × board × Bool)
        else
          (fun res =>
            if res.1 then res
            else
              (fun rest => (rest.1, rest.2.1, res.2.2 || rest.2.2))
                (tryVals go n (unset_cell res.2.1 r c (vn : Int).toNat) r c
                  ((vn : Int).toNat + 1)))
            (go (set_cell b r c (vn : Int).toNat) r c)) = _
  rw [if_neg (by omega : ¬((vn : Int) = -1))]
  rfl

theorem solveD_step (fuel : Nat) (b : board) (r c : Nat) (h0 : ¬b.unset_cells = 0) :
    solveD (fuel + 1) b r c =
      if is_set b (findUnset b 81 r c).1 (findUnset b 81 r c).2 = true then (true, b, true)
      else tryVals (solveD fuel) 9 b (findUnset b 81 r c).1 (findUnset b 81 r c).2 1 := by
  rw [solveD_eq, if_neg h0]


theorem tryVals_main (go : board → Nat → Nat → Bool × board × Bool)
    (hgo1 : SolveSpec go) (hgo2 : SolveInvSpec go) :
    ∀ n b r c prev, Inv b → 1 ≤ r → r ≤ 9 → 1 ≤ c → c ≤ 9 → 1 ≤ prev →
      hv b r c = false → Pfx b r c →
    (tryVals go n b r c prev).2.2 = false ∧
    Inv (tryVals go n b r c prev).2.1 ∧
    ((tryVals go n b r c prev).1 = true → (tryVals go n b r c prev).2.1.unset_cells = 0) := by
  intro n
  induction n with
  | zero =>
    intro b r c prev hInv hr1 hr9 hc1 hc9 hprev hvrc hPfx
    rw [tryVals_zero]
    exact ⟨rfl, hInv, fun h => nomatch h⟩
  | succ n ih =>
    intro b r c prev hInv hr1 hr9 hc1 hc9 hprev hvrc hPfx
    by_cases hneg : find_common_free (rowC b r) (colC b c) (sqC b (square r c)) prev = -1
    · rw [tryVals_step_none go n b r c prev hneg]
      exact ⟨rfl, hInv, fun h => nomatch h⟩
    · obtain ⟨vn, hfcf, hmin, hv9, hfree, _⟩ := find_common_free_some hneg
      obtain ⟨hu1, hu2, hu3⟩ := freeIn_spec hfree
      have hv1 : 1 ≤ vn := le_trans hprev hmin
      rw [tryVals_step_found go n b r c prev hfcf]
      have hb : dims b := hInv.1
      have hsq9 := (square_bounds hr1 hr9 hc1 hc9).2
      have hInv1 : Inv (set_cell b r c vn) :=
        Inv_set_cell hInv hr1 hr9 hc1 hc9 hv1 hv9 hvrc hu1 hu2 hu3
      have hPfx1 : Pfx (set_cell b r c vn) r c := by
        intro i j hi1 hi9 hj1 hj9 hunset
        rw [hv_set_cell hb hr9 hc9] at hunset
        by_cases hij : i = r ∧ j = c
        · rw [if_pos hij] at hunset
          cases hunset
        · rw [if_neg hij] at hunset
          exact hPfx i j hi1 hi9 hj1 hj9 hunset
      obtain ⟨hflag, hInv2, hok0⟩ :=
        hgo2 (set_cell b r c vn) r c hInv1 hr1 hr9 hc1 hc9 hPfx1
      by_cases hok : (go (set_cell b r c vn) r c).1 = true
      · rw [if_pos hok]
        exact ⟨hflag, hInv2, fun _ => hok0 hok⟩
      · rw [if_neg hok]
        have hok' : (go (set_cell b r c vn) r c).1 = false := by
          cases h : (go (set_cell b r c vn) r c).1
          · rfl
          · exact absurd h hok
        have hd1 : dims (set_cell b r c vn) := hInv1.1
        have hrst : restored (go (set_cell b r c vn) r c).2.1 (set_cell b r c vn) :=
          (hgo1 (set_cell b r c vn) r c hd1 hr1 hr9 hc1 hc9).2.1 hok'
        obtain ⟨hq1, hq2, hq3, hq4, hq5, hq6⟩ := hrst
        have hd2 : dims (go (set_cell b r c vn) r c).2.1 :=
          (hgo1 (set_cell b r c vn) r c hd1 hr1 hr9 hc1 hc9).1
        have hv1true : hv (set_cell b r c vn) r c = true := by
          rw [hv_set_cell hb hr9 hc9, if_pos ⟨rfl, rfl⟩]
        have hholds2 : holds (go (set_cell b r c vn) r c).2.1 r c vn = true := by
          apply holds_self
          · rw [hq2 r c]
            exact hv1true
          · rw [hq3 r c hv1true, cv_set_cell hb hr9 hc9, if_pos ⟨rfl, rfl⟩]
        have hInv3 : Inv (unset_cell (go (set_cell b r c vn) r c).2.1 r c vn) :=
          Inv_unset_cell hInv2 hr1 hr9 hc1 hc9 hv1 hv9 hholds2
        have hv3 : ∀ i j,
            hv (unset_cell (go (set_cell b r c vn) r c).2.1 r c vn) i j = hv b i j := by
          intro i j
          rw [hv_unset_cell hd2 hr9 hc9]
          by_cases hij : i = r ∧ j = c
          · rw [if_pos hij, hij.1, hij.2, hvrc]
          · rw [if_neg hij, hq2 i j, hv_set_cell hb hr9 hc9, if_neg hij]
        have hPfx3 : Pfx (unset_cell (go (set_cell b r c vn) r c).2.1 r c vn) r c := by
          intro i j hi1 hi9 hj1 hj9 hunset
          rw [hv3 i j] at hunset
          exact hPfx i j hi1 hi9 hj1 hj9 hunset
        obtain ⟨hflag', hInv', hok0'⟩ := ih
          (unset_cell (go (set_cell b r c vn) r c).2.1 r c vn) r c (vn + 1)
          hInv3 hr1 hr9 hc1 hc9 (by omega) (by rw [hv3 r c]; exact hvrc) hPfx3
        refine ⟨?_, hInv', ?_⟩
        · show ((go (set_cell b r c vn) r c).2.2
            || (tryVals go n (unset_cell (go (set_cell b r c vn) r c).2.1 r c vn) r c
                  (vn + 1)).2.2) = false
          rw [hflag, hflag']
          rfl
        · intro h
          exact hok0' h

theorem solveD_main : ∀ fuel, SolveInvSpec (solveD fuel) := by
  intro fuel
  induction fuel with
  | zero =>
    intro b r c hInv hr1 hr9 hc1 hc9 hPfx
    rw [solveD_zero]
    exact ⟨rfl, hInv, fun h => nomatch h⟩
  | succ fuel ih =>
    intro b r c hInv hr1 hr9 hc1 hc9 hPfx
    by_cases h0 : b.unset_cells = 0
    · rw [solveD_eq, if_pos h0]
      exact ⟨rfl, hInv, fun _ => h0⟩
    · rw [solveD_step fuel b r c h0]
      have hfuel : 90 - rmIdx r c < 81 := by
        unfold rmIdx
        omega
      obtain ⟨⟨hp1, hp2⟩, ⟨hp3, hp4⟩, hple, hskip, hstop⟩ :=
        findUnset_spec b 81 r c hr1 hr9 hc1 hc9 hfuel
      by_cases hset : is_set b (findUnset b 81 r c).1 (findUnset b 81 r c).2 = true
      · exfalso
        obtain ⟨h9a, h9b⟩ := hstop hset
        have hall : ∀ i j, 1 ≤ i → i ≤ 9 → 1 ≤ j → j ≤ 9 → hv b i j = true := by
          intro i j hi1 hi9 hj1 hj9
          cases h : hv b i j
          · exfalso
            have hge1 : rmIdx r c ≤ rmIdx i j := hPfx i j hi1 hi9 hj1 hj9 h
            have hij90 : rmIdx i j ≤ 90 := rmIdx_le_90 hi9 hj9
            have h90 : rmIdx (findUnset b 81 r c).1 (findUnset b 81 r c).2 = 90 := by
              rw [h9a, h9b]
              rfl
            rcases Nat.lt_or_ge (rmIdx i j) 90 with hlt | hge
            · have := hskip i j hi1 hi9 hj1 hj9 hge1 (by omega)
              rw [is_set_eq_hv, h] at this
              cases this
            · have heq : rmIdx i j = rmIdx 9 9 := by
                unfold rmIdx at hij90 hge ⊢
                omega
              obtain ⟨rfl, rfl⟩ := rmIdx_inj hj1 hj9 (by omega) (by omega) heq
              rw [is_set_eq_hv] at hset
              rw [h9a, h9b] at hset
              rw [hset] at h
              cases h
          · rfl
        have hcnt0 : unsetCount b = 0 := by
          apply List.countP_eq_zero.mpr
          intro p hp
          obtain ⟨⟨hp1', hp2'⟩, ⟨hp3', hp4'⟩⟩ := mem_allPos.mp hp
          rw [Bool.not_eq_true', Bool.not_eq_false]
          exact hall p.1 p.2 hp1' hp2' hp3' hp4'
        rw [hInv.2.1, hcnt0] at h0
        exact h0 rfl
      · rw [if_neg hset]
        have hvp : hv b (findUnset b 81 r c).1 (findUnset b 81 r c).2 = false := by
          cases h : hv b (findUnset b 81 r c).1 (findUnset b 81 r c).2
          · rfl
          · rw [is_set_eq_hv] at hset
            exact absurd h hset
        have hPfxp : Pfx b (findUnset b 81 r c).1 (findUnset b 81 r c).2 := by
          intro i j hi1 hi9 hj1 hj9 hunset
          have hge1 : rmIdx r c ≤ rmIdx i j := hPfx i j hi1 hi9 hj1 hj9 hunset
          rcases Nat.lt_or_ge (rmIdx i j)
              (rmIdx (findUnset b 81 r c).1 (findUnset b 81 r c).2) with hlt | hge
          · have := hskip i j hi1 hi9 hj1 hj9 hge1 hlt
            rw [is_set_eq_hv, hunset] at this
            cases this
          · exact hge
        exact tryVals_main (solveD fuel) (solveD_spec fuel) ih 9 b
          (findUnset b 81 r c).1 (findUnset b 81 r c).2 1 hInv hp1 hp2 hp3 hp4
          (le_refl 1) hvp hPfxp

end Sudoku

namespace Sudoku

/-! ## A complete invariant-satisfying board is a valid Sudoku -/

theorem countP_le_one_unique {α : Type} [DecidableEq α] (l : List α) (hnd : l.Nodup)
    (p : α → Bool) (hle : l.countP p ≤ 1) :
    ∀ x ∈ l, ∀ y ∈ l, p x = true → p y = true → x = y := by
  intro x hx y hy hpx hpy
  by_contra hne
  have hperm := List.perm_cons_erase hx
  have h1 : l.countP p = List.countP p (l.erase x) + 1 := by
    rw [hperm.countP_eq p, List.countP_cons, hpx]
    rfl
  have hy' : y ∈ l.erase x := hnd.mem_erase_iff.mpr ⟨fun e => hne e.symm, hy⟩
  have h2 : 0 < List.countP p (l.erase x) := List.countP_pos_iff.mpr ⟨y, hy', hpy⟩
  omega

theorem exists_of_maps_inj {α : Type} (l : List α) (f : α → Nat) (hlen : l.length = 9)
    (hnd : l.Nodup) (hmem : ∀ x ∈ l, f x ∈ nums)
    (hinj : ∀ x ∈ l, ∀ y ∈ l, f x = f y → x = y) :
    ∀ w ∈ nums, ∃ x, x ∈ l ∧ f x = w := by
  have hmnd : (l.map f).Nodup := hnd.map_on hinj
  have hsub : (l.map f) ⊆ nums := by
    intro w hw
    rcases List.mem_map.mp hw with ⟨x, hx, rfl⟩
    exact hmem x hx
  have hsp := List.subperm_of_subset hmnd hsub
  have hperm := hsp.perm_of_length_le (by rw [List.length_map, hlen, nums_length])
  intro w hw
  rcases List.mem_map.mp (hperm.mem_iff.mpr hw) with ⟨x, hx, hfx⟩
  exact ⟨x, hx, hfx⟩

theorem all_set_of_counter_zero {b : board} (hInv : Inv b) (h0 : b.unset_cells = 0) :
    ∀ i ∈ nums, ∀ j ∈ nums, hv b i j = true := by
  have hcnt := hInv.2.1
  rw [h0] at hcnt
  have hc0 : unsetCount b = 0 := by omega
  intro i hi j hj
  have := List.countP_eq_zero.mp hc0 (i, j)
    (mem_allPos.mpr ⟨mem_nums.mp hi, mem_nums.mp hj⟩)
  cases h : hv b i j
  · exfalso
    apply this
    show (!hv b i j) = true
    rw [h]
    rfl
  · rfl

set_option maxHeartbeats 1600000 in
theorem Inv_complete {b : board} (hInv : Inv b) (h0 : b.unset_cells = 0) :
    (∀ i ∈ nums, ∀ j ∈ nums, hv b i j = true) ∧
    (∀ i ∈ nums, ∀ w ∈ nums, rowCount b i w = 1) ∧
    (∀ j ∈ nums, ∀ w ∈ nums, colCount b j w = 1) ∧
    (∀ s ∈ nums, ∀ w ∈ nums, sqCount b s w = 1) := by
  obtain ⟨hb, hcnt, hrow, hcol, hsq, hval⟩ := hInv
  have hall := all_set_of_counter_zero ⟨hb, hcnt, hrow, hcol, hsq, hval⟩ h0
  refine ⟨hall, ?_, ?_, ?_⟩
  · -- rows
    intro i hi w hw
    have hinj : ∀ x ∈ nums, ∀ y ∈ nums, cv b i x = cv b i y → x = y := by
      intro x hx y hy heq
      have hwmem : cv b i x ∈ nums :=
        mem_nums.mpr (hval i hi x hx (hall i hi x hx))
      apply countP_le_one_unique nums nums_nodup (fun j => holds b i j (cv b i x))
      · rw [show List.countP (fun j => holds b i j (cv b i x)) nums
            = rowCount b i (cv b i x) from rfl, hrow i hi (cv b i x) hwmem]
        split <;> omega
      · exact hx
      · exact hy
      · exact holds_self (hall i hi x hx) rfl
      · exact holds_self (hall i hi y hy) heq.symm
    obtain ⟨j, hj, hfx⟩ := exists_of_maps_inj nums (cv b i) nums_length nums_nodup
      (fun x hx => mem_nums.mpr (hval i hi x hx (hall i hi x hx))) hinj w hw
    have hpos : 0 < rowCount b i w :=
      List.countP_pos_iff.mpr ⟨j, hj, holds_self (hall i hi j hj) hfx⟩
    rw [hrow i hi w hw] at hpos ⊢
    split at hpos
    · split <;> omega
    · omega
  · -- columns
    intro j hj w hw
    have hinj : ∀ x ∈ nums, ∀ y ∈ nums, cv b x j = cv b y j → x = y := by
      intro x hx y hy heq
      have hwmem : cv b x j ∈ nums :=
        mem_nums.mpr (hval x hx j hj (hall x hx j hj))
      apply countP_le_one_unique nums nums_nodup (fun i => holds b i j (cv b x j))
      · rw [show List.countP (fun i => holds b i j (cv b x j)) nums
            = colCount b j (cv b x j) from rfl, hcol j hj (cv b x j) hwmem]
        split <;> omega
      · exact hx
      · exact hy
      · exact holds_self (hall x hx j hj) rfl
      · exact holds_self (hall y hy j hj) heq.symm
    obtain ⟨i, hi, hfx⟩ := exists_of_maps_inj nums (fun i => cv b i j) nums_length
      nums_nodup (fun x hx => mem_nums.mpr (hval x hx j hj (hall x hx j hj))) hinj w hw
    have hpos : 0 < colCount b j w :=
      List.countP_pos_iff.mpr ⟨i, hi, holds_self (hall i hi j hj) hfx⟩
    rw [hcol j hj w hw] at hpos ⊢
    split at hpos
    · split <;> omega
    · omega
  · -- squares
    intro s hs w hw
    have hlen9 : ∀ s' ∈ nums,
        (allPos.filter (fun p => square p.1 p.2 == s')).length = 9 := by decide
    have hmemf : ∀ x ∈ allPos.filter (fun p => square p.1 p.2 == s),
        cv b x.1 x.2 ∈ nums := by
      intro x hx
      obtain ⟨hxa, _⟩ := List.mem_filter.mp hx
      obtain ⟨⟨h1, h2⟩, ⟨h3, h4⟩⟩ := mem_allPos.mp hxa
      exact mem_nums.mpr (hval x.1 (mem_nums.mpr ⟨h1, h2⟩) x.2 (mem_nums.mpr ⟨h3, h4⟩)
        (hall x.1 (mem_nums.mpr ⟨h1, h2⟩) x.2 (mem_nums.mpr ⟨h3, h4⟩)))
    have hholdsf : ∀ x ∈ allPos.filter (fun p => square p.1 p.2 == s),
        ∀ w', cv b x.1 x.2 = w' →
        (square x.1 x.2 == s && holds b x.1 x.2 w') = true := by
      intro x hx w' hcv
      obtain ⟨hxa, hxs⟩ := List.mem_filter.mp hx
      obtain ⟨⟨h1, h2⟩, ⟨h3, h4⟩⟩ := mem_allPos.mp hxa
      rw [hxs, Bool.true_and]
      exact holds_self (hall x.1 (mem_nums.mpr ⟨h1, h2⟩) x.2 (mem_nums.mpr ⟨h3, h4⟩)) hcv
    have hinj : ∀ x ∈ allPos.filter (fun p => square p.1 p.2 == s),
        ∀ y ∈ allPos.filter (fun p => square p.1 p.2 == s),
        cv b x.1 x.2 = cv b y.1 y.2 → x = y := by
      intro x hx y hy heq
      have hwmem : cv b x.1 x.2 ∈ nums := hmemf x hx
      apply countP_le_one_unique allPos allPos_nodup
        (fun p => square p.1 p.2 == s && holds b p.1 p.2 (cv b x.1 x.2))
      · rw [show List.countP
              (fun p => square p.1 p.2 == s && holds b p.1 p.2 (cv b x.1 x.2)) allPos
            = sqCount b s (cv b x.1 x.2) from rfl, hsq s hs (cv b x.1 x.2) hwmem]
        split <;> omega
      · exact (List.mem_filter.mp hx).1
      · exact (List.mem_filter.mp hy).1
      · exact hholdsf x hx (cv b x.1 x.2) rfl
      · exact hholdsf y hy (cv b x.1 x.2) heq.symm
    obtain ⟨p, hp, hfx⟩ := exists_of_maps_inj
      (allPos.filter (fun p => square p.1 p.2 == s)) (fun p => cv b p.1 p.2)
      (hlen9 s hs) (allPos_nodup.filter _) hmemf hinj w hw
    have hpos : 0 < sqCount b s w :=
      List.countP_pos_iff.mpr ⟨p, (List.mem_filter.mp hp).1, hholdsf p hp w hfx⟩
    rw [hsq s hs w hw] at hpos ⊢
    split at hpos
    · split <;> omega
    · omega

/-! ## Boards built by valid `set_cell` / `unset_cell` calls -/

theorem Built_Inv : ∀ b, Built b → Inv b := by
  intro b hb
  induction hb with
  | init => exact Inv_init
  | set b r c v hb hr1 hr9 hc1 hc9 hv1 hv9 hunset hru hcu hsu ih =>
    exact Inv_set_cell ih hr1 hr9 hc1 hc9 hv1 hv9 hunset hru hcu hsu
  | unset b r c v hb hr1 hr9 hc1 hc9 hv1 hv9 hset ih =>
    exact Inv_unset_cell ih hr1 hr9 hc1 hc9 hv1 hv9 hset

end Sudoku

namespace Sudoku

/-! ## Fuel irrelevance: the recursion depth is bounded by 82 and the
candidate loop by `10 - prev` iterations -/

theorem unsetCount_congr {b' b : board} (h : ∀ i j, hv b' i j = hv b i j) :
    unsetCount b' = unsetCount b := by
  unfold unsetCount
  apply List.countP_congr
  intro x hx
  show (!hv b' x.1 x.2) = true ↔ (!hv b x.1 x.2) = true
  rw [h x.1 x.2]

theorem unsetCount_le (b : board) : unsetCount b ≤ 81 :=
  le_trans (List.countP_le_length _) (by rfl)

theorem fcf_exhausted {r c s : candidates} {prev : Nat} (h : 10 ≤ prev) :
    find_common_free r c s prev = -1 := by
  unfold find_common_free
  rw [show 10 - prev = 0 from by omega]
  rfl

theorem tryVals_fuel_congr (go : board → Nat → Nat → Bool × board × Bool) (r c : Nat) :
    ∀ n m b prev, 10 ≤ n + prev → 10 ≤ m + prev →
      tryVals go n b r c prev = tryVals go m b r c prev := by
  intro n
  induction n with
  | zero =>
    intro m b prev hn hm
    have hp : 10 ≤ prev := by omega
    cases m with
    | zero => rfl
    | succ m' =>
      rw [tryVals_zero, tryVals_step_none go m' b r c prev (fcf_exhausted hp)]
  | succ n ih =>
    intro m b prev hn hm
    cases m with
    | zero =>
      have hp : 10 ≤ prev := by omega
      rw [tryVals_zero, tryVals_step_none go n b r c prev (fcf_exhausted hp)]
    | succ m' =>
      by_cases hneg : find_common_free (rowC b r) (colC b c) (sqC b (square r c)) prev = -1
      · rw [tryVals_step_none go n b r c prev hneg, tryVals_step_none go m' b r c prev hneg]
      · obtain ⟨vn, hfcf, hmin, hv9, _, _⟩ := find_common_free_some hneg
        rw [tryVals_step_found go n b r c prev hfcf,
          tryVals_step_found go m' b r c prev hfcf]
        rw [ih m' (unset_cell (go (set_cell b r c vn) r c).2.1 r c vn) (vn + 1)
          (by omega) (by omega)]

theorem tryVals_congr (go1 go2 : board → Nat → Nat → Bool × board × Bool)
    (hgo1 : SolveSpec go1) (r c : Nat) (hr1 : 1 ≤ r) (hr9 : r ≤ 9)
    (hc1 : 1 ≤ c) (hc9 : c ≤ 9) (m : Nat)
    (hgo : ∀ b', dims b' → unsetCount b' < m → go1 b' r c = go2 b' r c) :
    ∀ n b prev, dims b → hv b r c = false → unsetCount b ≤ m →
      tryVals go1 n b r c prev = tryVals go2 n b r c prev := by
  intro n
  induction n with
  | zero =>
    intro b prev hd hvrc hcnt
    rfl
  | succ n ih =>
    intro b prev hd hvrc hcnt
    by_cases hneg : find_common_free (rowC b r) (colC b c) (sqC b (square r c)) prev = -1
    · rw [tryVals_step_none go1 n b r c prev hneg, tryVals_step_none go2 n b r c prev hneg]
    · obtain ⟨vn, hfcf, hmin, hv9, hfree, _⟩ := find_common_free_some hneg
      rw [tryVals_step_found go1 n b r c prev hfcf, tryVals_step_found go2 n b r c prev hfcf]
      have hsq9 := (square_bounds hr1 hr9 hc1 hc9).2
      have hd1 : dims (set_cell b r c vn) := dims_set_cell hd hr9 hc9 hsq9
      have hcnt1 : unsetCount (set_cell b r c vn) + 1 = unsetCount b :=
        unsetCount_set_cell hd vn hr1 hr9 hc1 hc9 hvrc
      have hcall : go1 (set_cell b r c vn) r c = go2 (set_cell b r c vn) r c :=
        hgo (set_cell b r c vn) hd1 (by omega)
      rw [← hcall]
      by_cases hok : (go1 (set_cell b r c vn) r c).1 = true
      · rw [if_pos hok, if_pos hok]
      · rw [if_neg hok, if_neg hok]
        have hok' : (go1 (set_cell b r c vn) r c).1 = false := by
          cases h : (go1 (set_cell b r c vn) r c).1
          · rfl
          · exact absurd h hok
        obtain ⟨hd2, hrest2, _⟩ := hgo1 (set_cell b r c vn) r c hd1 hr1 hr9 hc1 hc9
        obtain ⟨hq1, hq2, hq3, hq4, hq5, hq6⟩ := hrest2 hok'
        have hd3 : dims (unset_cell (go1 (set_cell b r c vn) r c).2.1 r c vn) :=
          dims_unset_cell hd2 hr9 hc9 hsq9
        have hv3 : ∀ i j,
            hv (unset_cell (go1 (set_cell b r c vn) r c).2.1 r c vn) i j = hv b i j := by
          intro i j
          rw [hv_unset_cell hd2 hr9 hc9]
          by_cases hij : i = r ∧ j = c
          · rw [if_pos hij, hij.1, hij.2, hvrc]
          · rw [if_neg hij, hq2 i j, hv_set_cell hd hr9 hc9, if_neg hij]
        rw [ih (unset_cell (go1 (set_cell b r c vn) r c).2.1 r c vn) (vn + 1) hd3
          (by rw [hv3 r c]; exact hvrc)
          (by rw [unsetCount_congr hv3]; exact hcnt)]

theorem solveD_congr : ∀ f g b r c, dims b → 1 ≤ r → r ≤ 9 → 1 ≤ c → c ≤ 9 →
    unsetCount b < f → unsetCount b < g → solveD f b r c = solveD g b r c := by
  intro f
  induction f with
  | zero =>
    intro g b r c hd hr1 hr9 hc1 hc9 hf hg
    exact absurd hf (by omega)
  | succ f ih =>
    intro g b r c hd hr1 hr9 hc1 hc9 hf hg
    cases g with
    | zero => exact absurd hg (by omega)
    | succ g =>
      by_cases h0 : b.unset_cells = 0
      · rw [solveD_eq, if_pos h0, solveD_eq, if_pos h0]
      · rw [solveD_step f b r c h0, solveD_step g b r c h0]
        have hfuel : 90 - rmIdx r c < 81 := by
          unfold rmIdx
          omega
        obtain ⟨⟨hp1, hp2⟩, ⟨hp3, hp4⟩, _, _, _⟩ :=
          findUnset_spec b 81 r c hr1 hr9 hc1 hc9 hfuel
        by_cases hset : is_set b (findUnset b 81 r c).1 (findUnset b 81 r c).2 = true
        · rw [if_pos hset, if_pos hset]
        · rw [if_neg hset, if_neg hset]
          have hvp : hv b (findUnset b 81 r c).1 (findUnset b 81 r c).2 = false := by
            cases h : hv b (findUnset b 81 r c).1 (findUnset b 81 r c).2
            · rfl
            · rw [is_set_eq_hv] at hset
              exact absurd h hset
          apply tryVals_congr (solveD f) (solveD g) (solveD_spec f)
            (findUnset b 81 r c).1 (findUnset b 81 r c).2 hp1 hp2 hp3 hp4 (unsetCount b)
            (fun b' hd' hlt => ih g b' (findUnset b 81 r c).1 (findUnset b 81 r c).2 hd'
              hp1 hp2 hp3 hp4 (by omega) (by omega))
            9 b 1 hd hvp (le_refl _)

end Sudoku

namespace Sudoku


theorem Built_placeAll : ∀ ts b, Built b → canPlaceAll b ts = true → Built (placeAll b ts) := by
  intro ts
  induction ts with
  | nil =>
    intro b hB _
    exact hB
  | cons t ts ih =>
    intro b hB h
    unfold canPlaceAll at h
    split at h
    · rename_i hcond
      obtain ⟨h1, h2, h3, h4, h5, h6, h7, h8, h9, h10⟩ := hcond
      exact ih (set_cell b t.1 t.2.1 t.2.2)
        (Built.set b t.1 t.2.1 t.2.2 hB h1 h2 h3 h4 h5 h6 h7 h8 h9 h10) h
    · cases h


theorem cell_eq (x y : cell) (h1 : x.has_value = y.has_value) (h2 : x.value = y.value) :
    x = y := by
  cases x with
  | mk a b =>
    cases y with
    | mk a' b' =>
      have e1 : a = a' := h1
      have e2 : b = b' := h2
      rw [e1, e2]

theorem board_eq (b1 b2 : board) (h1 : b1.unset_cells = b2.unset_cells)
    (h2 : b1.cells = b2.cells) (h3 : b1.rows = b2.rows) (h4 : b1.columns = b2.columns)
    (h5 : b1.squares = b2.squares) : b1 = b2 := by
  cases b1 with
  | mk u1 c1 r1 l1 s1 =>
    cases b2 with
    | mk u2 c2 r2 l2 s2 =>
      have e1 : u1 = u2 := h1
      have e2 : c1 = c2 := h2
      have e3 : r1 = r2 := h3
      have e4 : l1 = l2 := h4
      have e5 : s1 = s2 := h5
      rw [e1, e2, e3, e4, e5]

/-! ## `read_board` step lemmas -/

theorem readGo_skip {ch : Char} {rest : List Char} {b : board} {row col : Nat}
    (hcond : ((ch.isDigit && ch != '0') || ch == '.') = false) :
    readGo (ch :: rest) b row col = readGo rest b row col := by
  rw [readGo.eq_2, hcond]
  rfl

theorem readGo_take_some {ch : Char} {rest : List Char} {b : board} {row col r' c' : Nat}
    (hcond : ((ch.isDigit && ch != '0') || ch == '.') = true)
    (hnext : next_cell row col = some (r', c')) :
    readGo (ch :: rest) b row col
      = readGo rest (if ch != '.' then set_cell b row col (ch.toNat - '0'.toNat) else b)
          r' c' := by
  rw [readGo.eq_2, hcond, hnext]
  rfl

theorem readGo_take_none {ch : Char} {rest : List Char} {b : board} {row col : Nat}
    (hcond : ((ch.isDigit && ch != '0') || ch == '.') = true)
    (hnext : next_cell row col = none) :
    readGo (ch :: rest) b row col
      = (if ch != '.' then set_cell b row col (ch.toNat - '0'.toNat) else b) := by
  rw [readGo.eq_2, hcond, hnext]
  rfl

end Sudoku

namespace Sudoku

/-! ## The claims -/

/-- Claim C1: for every initial board built by valid `set_cell` (and
`unset_cell`) operations from `init_board`, if `solve_board` from `(1, 1)`
returns success then in the resulting grid every cell is set and every
row, column and square contains each value 1..9 exactly once. -/
theorem claim_C1 (b : board) (hB : Built b) (hsucc : (solve_board b 1 1).1 = true) :
    (∀ i ∈ nums, ∀ j ∈ nums, hv (solve_board b 1 1).2 i j = true) ∧
    (∀ i ∈ nums, ∀ v ∈ nums, rowCount (solve_board b 1 1).2 i v = 1) ∧
    (∀ j ∈ nums, ∀ v ∈ nums, colCount (solve_board b 1 1).2 j v = 1) ∧
    (∀ s ∈ nums, ∀ v ∈ nums, sqCount (solve_board b 1 1).2 s v = 1) := by
  have hInv := Built_Inv b hB
  have hPfx : Pfx b 1 1 := by
    intro i j hi1 hi9 hj1 hj9 h
    unfold rmIdx
    omega
  obtain ⟨hflag, hInv', h0⟩ :=
    solveD_main 82 b 1 1 hInv (le_refl 1) (by omega) (le_refl 1) (by omega) hPfx
  have hsucc' : (solveD 82 b 1 1).1 = true := hsucc
  exact Inv_complete hInv' (h0 hsucc')

set_option maxRecDepth 400000 in
/-- Witness for C1 at a concrete solvable board with 80 givens. -/
theorem claim_C1_witness :
    (solve_board b80 1 1).1 = true ∧
    (∀ i ∈ nums, ∀ j ∈ nums, hv (solve_board b80 1 1).2 i j = true) ∧
    (∀ i ∈ nums, ∀ v ∈ nums, rowCount (solve_board b80 1 1).2 i v = 1) ∧
    (∀ j ∈ nums, ∀ v ∈ nums, colCount (solve_board b80 1 1).2 j v = 1) ∧
    (∀ s ∈ nums, ∀ v ∈ nums, sqCount (solve_board b80 1 1).2 s v = 1) := by
  have hB : Built b80 := Built_placeAll grid80 init_board Built.init (by decide)
  have hs : (solve_board b80 1 1).1 = true := by decide
  exact ⟨hs, claim_C1 b80 hB hs⟩

/-- Claim C2: for every board (of the `struct board` shape) and every
starting position in the asserted range, if `solve_board` returns failure
then the board is restored exactly: the counter, every `has_value` flag,
every set cell's value, and every candidates-array mark equal their
pre-search values. -/
theorem claim_C2 (b : board) (hd : dims b) (r c : Nat) (hr1 : 1 ≤ r) (hr9 : r ≤ 9)
    (hc1 : 1 ≤ c) (hc9 : c ≤ 9) (hfail : (solve_board b r c).1 = false) :
    (solve_board b r c).2.unset_cells = b.unset_cells ∧
    (∀ i j, hv (solve_board b r c).2 i j = hv b i j) ∧
    (∀ i j, hv b i j = true → cv (solve_board b r c).2 i j = cv b i j) ∧
    (∀ i v, rused (solve_board b r c).2 i v = rused b i v) ∧
    (∀ j v, cused (solve_board b r c).2 j v = cused b j v) ∧
    (∀ s v, sqused (solve_board b r c).2 s v = sqused b s v) :=
  (solveD_spec 82 b r c hd hr1 hr9 hc1 hc9).2.1 hfail

/-- Witness for C2 at a concrete unsolvable board. -/
theorem claim_C2_witness :
    dims bFail ∧ (solve_board bFail 1 1).1 = false ∧
    (solve_board bFail 1 1).2.unset_cells = bFail.unset_cells := by
  have hd : dims bFail := by decide
  have hf : (solve_board bFail 1 1).1 = false := by decide
  exact ⟨hd, hf,
    (claim_C2 bFail hd 1 1 (le_refl 1) (by omega) (le_refl 1) (by omega) hf).1⟩

/-- Claim C3: `find_common_free` returns `-1` exactly when no value in
`[atleast, 9]` is free in all three arrays; otherwise it returns the
smallest such value, which in particular is marked in none of the three
arrays. -/
theorem claim_C3 (r c s : candidates) (a : Nat) :
    (find_common_free r c s a = -1 ↔ ∀ v, a ≤ v → v ≤ 9 → freeIn r c s v = false) ∧
    (∀ v : Nat, find_common_free r c s a = (v : Int) →
      (a ≤ v ∧ v ≤ 9) ∧
      (used r v = false ∧ used c v = false ∧ used s v = false) ∧
      (∀ w, a ≤ w → w < v → freeIn r c s w = false)) := by
  constructor
  · constructor
    · exact fun h => find_common_free_neg1 h
    · intro hall
      by_contra hne
      obtain ⟨v, _, h1, h2, hfree, _⟩ := find_common_free_some hne
      rw [hall v h1 h2] at hfree
      cases hfree
  · intro v hv
    have hne : find_common_free r c s a ≠ -1 := by
      rw [hv]
      omega
    obtain ⟨v', hv', h1, h2, hfree, hmin⟩ := find_common_free_some hne
    have hcast : (v' : Int) = (v : Int) := by rw [← hv, ← hv']
    have heq : v' = v := by omega
    subst heq
    exact ⟨⟨h1, h2⟩, freeIn_spec hfree, hmin⟩

/-- Witness for C3 at concrete candidate arrays. -/
theorem claim_C3_witness :
    find_common_free (use_candidate init_candidates 2) (use_candidate init_candidates 3)
      init_candidates 2 = (4 : Int) ∧
    ((2 ≤ 4 ∧ 4 ≤ 9) ∧
     (used (use_candidate init_candidates 2) 4 = false ∧
      used (use_candidate init_candidates 3) 4 = false ∧
      used init_candidates 4 = false) ∧
     (∀ w, 2 ≤ w → w < 4 →
       freeIn (use_candidate init_candidates 2) (use_candidate init_candidates 3)
         init_candidates w = false)) := by
  have h : find_common_free (use_candidate init_candidates 2)
      (use_candidate init_candidates 3) init_candidates 2 = (4 : Int) := by decide
  exact ⟨h, (claim_C3 (use_candidate init_candidates 2) (use_candidate init_candidates 3)
    init_candidates 2).2 4 h⟩

/-- Claim C4: on every board built by valid operations from `init_board`,
the defensive branch of `solve_board` (return success when the scan from
the top-level call at `(1, 1)` ends on a set cell while the counter is
nonzero) is never taken: the ghost flag of the instrumented solver is
false, and `solve_board` is exactly the instrumented solver without the
flag. -/
theorem claim_C4 (b : board) (hB : Built b) :
    (solveD 82 b 1 1).2.2 = false ∧
    solve_board b 1 1 = ((solveD 82 b 1 1).1, (solveD 82 b 1 1).2.1) := by
  refine ⟨?_, rfl⟩
  have hPfx : Pfx b 1 1 := by
    intro i j hi1 hi9 hj1 hj9 h
    unfold rmIdx
    omega
  exact (solveD_main 82 b 1 1 (Built_Inv b hB) (le_refl 1) (by omega) (le_refl 1)
    (by omega) hPfx).1

/-- Witness for C4 at the empty board. -/
theorem claim_C4_witness :
    (solveD 82 init_board 1 1).2.2 = false ∧
    solve_board init_board 1 1 = ((solveD 82 init_board 1 1).1, (solveD 82 init_board 1 1).2.1) :=
  claim_C4 init_board Built.init

/-- Claim C5: on every board reachable from `init_board` by `set_cell` and
`unset_cell` calls respecting their preconditions, a value is marked in a
row/column/square candidates array iff some cell of that row/column/square
holds it, and the unset-cell counter counts the unset cells. -/
theorem claim_C5 (b : board) (hB : Built b) :
    (∀ i ∈ nums, ∀ v ∈ nums, (rused b i v = true ↔ ∃ j ∈ nums, holds b i j v = true)) ∧
    (∀ j ∈ nums, ∀ v ∈ nums, (cused b j v = true ↔ ∃ i ∈ nums, holds b i j v = true)) ∧
    (∀ s ∈ nums, ∀ v ∈ nums,
      (sqused b s v = true ↔ ∃ p ∈ allPos, square p.1 p.2 = s ∧ holds b p.1 p.2 v = true)) ∧
    b.unset_cells = (unsetCount b : Int) := by
  obtain ⟨hd, hcnt, hrow, hcol, hsq, hval⟩ := Built_Inv b hB
  refine ⟨?_, ?_, ?_, hcnt⟩
  · intro i hi v hv
    constructor
    · intro h
      have hpos : 0 < rowCount b i v := by
        rw [hrow i hi v hv, h, if_pos rfl]
        omega
      exact List.countP_pos_iff.mp hpos
    · rintro ⟨j, hj, hjh⟩
      have hpos : 0 < rowCount b i v := List.countP_pos_iff.mpr ⟨j, hj, hjh⟩
      rw [hrow i hi v hv] at hpos
      by_cases h : rused b i v = true
      · exact h
      · rw [if_neg h] at hpos
        exact absurd hpos (by omega)
  · intro j hj v hv
    constructor
    · intro h
      have hpos : 0 < colCount b j v := by
        rw [hcol j hj v hv, h, if_pos rfl]
        omega
      exact List.countP_pos_iff.mp hpos
    · rintro ⟨i, hi, hih⟩
      have hpos : 0 < colCount b j v := List.countP_pos_iff.mpr ⟨i, hi, hih⟩
      rw [hcol j hj v hv] at hpos
      by_cases h : cused b j v = true
      · exact h
      · rw [if_neg h] at hpos
        exact absurd hpos (by omega)
  · intro s hs v hv
    constructor
    · intro h
      have hpos : 0 < sqCount b s v := by
        rw [hsq s hs v hv, h, if_pos rfl]
        omega
      obtain ⟨p, hp, hph⟩ := List.countP_pos_iff.mp hpos
      rcases Bool.and_eq_true_iff.mp hph with ⟨hb1, hb2⟩
      refine ⟨p, hp, ?_, hb2⟩
      simpa using hb1
    · rintro ⟨p, hp, hps, hph⟩
      have hppred : (square p.1 p.2 == s && holds b p.1 p.2 v) = true := by
        rw [hps, hph, Bool.and_true]
        simp
      have hpos : 0 < sqCount b s v := List.countP_pos_iff.mpr ⟨p, hp, hppred⟩
      rw [hsq s hs v hv] at hpos
      by_cases h : sqused b s v = true
      · exact h
      · rw [if_neg h] at hpos
        exact absurd hpos (by omega)

/-- Witness for C5 at the freshly initialised board. -/
theorem claim_C5_witness :
    (∀ i ∈ nums, ∀ v ∈ nums,
      (rused init_board i v = true ↔ ∃ j ∈ nums, holds init_board i j v = true)) ∧
    (∀ j ∈ nums, ∀ v ∈ nums,
      (cused init_board j v = true ↔ ∃ i ∈ nums, holds init_board i j v = true)) ∧
    (∀ s ∈ nums, ∀ v ∈ nums,
      (sqused init_board s v = true ↔
        ∃ p ∈ allPos, square p.1 p.2 = s ∧ holds init_board p.1 p.2 v = true)) ∧
    init_board.unset_cells = (unsetCount init_board : Int) :=
  claim_C5 init_board Built.init

/-- Claim C6: if `solve_board` returns success, every cell that was set
before the search still holds its original value in the final grid. -/
theorem claim_C6 (b : board) (hd : dims b) (r c : Nat) (hr1 : 1 ≤ r) (hr9 : r ≤ 9)
    (hc1 : 1 ≤ c) (hc9 : c ≤ 9) (hsucc : (solve_board b r c).1 = true)
    (i j : Nat) (hset : hv b i j = true) :
    cellAt (solve_board b r c).2 i j = cellAt b i j := by
  obtain ⟨h1, h2⟩ := (solveD_spec 82 b r c hd hr1 hr9 hc1 hc9).2.2 i j hset
  apply cell_eq
  · show hv (solveD 82 b r c).2.1 i j = hv b i j
    rw [h1, hset]
  · exact h2

/-- Witness for C6 at a concrete board that is solved immediately. -/
theorem claim_C6_witness :
    dims bDone ∧ (solve_board bDone 1 1).1 = true ∧ hv bDone 1 1 = true ∧
    cellAt (solve_board bDone 1 1).2 1 1 = cellAt bDone 1 1 := by
  have hd : dims bDone := by decide
  have hs : (solve_board bDone 1 1).1 = true := by decide
  have hv1 : hv bDone 1 1 = true := by decide
  exact ⟨hd, hs, hv1,
    claim_C6 bDone hd 1 1 (le_refl 1) (by omega) (le_refl 1) (by omega) hs 1 1 hv1⟩

/-- Counterexample to C7 as stated: on a board whose unset cell `(1, 1)`
carries a junk `value` field of 7, `set_cell` then `unset_cell` does not
restore the board identically (the dead field becomes 0) although the
cell is unset and the value is unmarked in all three candidate arrays. -/
theorem claim_C7_cex :
    is_set junkBoard 1 1 = false ∧
    used (rowC junkBoard 1) 1 = false ∧ used (colC junkBoard 1) 1 = false ∧
    used (sqC junkBoard (square 1 1)) 1 = false ∧
    unset_cell (set_cell junkBoard 1 1 1) 1 1 1 ≠ junkBoard := by decide

/-- Claim C7 (amended): `unset_cell` after `set_cell` restores the board
identically, provided additionally that the unset cell's stored `value`
field is 0 — as is the case for every unset cell of any board reachable
from `init_board`, where unset cells always store value 0. -/
theorem claim_C7 (b : board) (r c v : Nat) (hcell : cellAt b r c = ⟨false, 0⟩)
    (hru : used (rowC b r) v = false) (hcu : used (colC b c) v = false)
    (hsu : used (sqC b (square r c)) v = false) :
    unset_cell (set_cell b r c v) r c v = b := by
  apply board_eq
  · show b.unset_cells - 1 + 1 = b.unset_cells
    omega
  · show (b.cells.set r ((b.cells.getD r []).set c ⟨true, v⟩)).set r
        (((b.cells.set r ((b.cells.getD r []).set c ⟨true, v⟩)).getD r []).set c ⟨false, 0⟩)
        = b.cells
    rw [List.set_set]
    by_cases hlen : r < b.cells.length
    · rw [getD_set_self _ _ _ _ hlen, List.set_set, set_getD_self _ _ _ _ hcell,
        set_getD_self _ _ _ _ rfl]
    · rw [List.set_eq_of_length_le (by omega)]
  · show (b.rows.set r (use_candidate (rowC b r) v)).set r
        (restore_candidate ((b.rows.set r (use_candidate (rowC b r) v)).getD r []) v)
        = b.rows
    rw [List.set_set]
    by_cases hlen : r < b.rows.length
    · rw [getD_set_self _ _ _ _ hlen]
      show b.rows.set r (((rowC b r).set v true).set v false) = b.rows
      rw [List.set_set, set_getD_self _ _ _ _ hru]
      exact set_getD_self b.rows r (rowC b r) [] rfl
    · rw [List.set_eq_of_length_le (by omega)]
  · show (b.columns.set c (use_candidate (colC b c) v)).set c
        (restore_candidate ((b.columns.set c (use_candidate (colC b c) v)).getD c []) v)
        = b.columns
    rw [List.set_set]
    by_cases hlen : c < b.columns.length
    · rw [getD_set_self _ _ _ _ hlen]
      show b.columns.set c (((colC b c).set v true).set v false) = b.columns
      rw [List.set_set, set_getD_self _ _ _ _ hcu]
      exact set_getD_self b.columns c (colC b c) [] rfl
    · rw [List.set_eq_of_length_le (by omega)]
  · show (b.squares.set (square r c) (use_candidate (sqC b (square r c)) v)).set (square r c)
        (restore_candidate
          ((b.squares.set (square r c) (use_candidate (sqC b (square r c)) v)).getD
            (square r c) []) v)
        = b.squares
    rw [List.set_set]
    by_cases hlen : square r c < b.squares.length
    · rw [getD_set_self _ _ _ _ hlen]
      show b.squares.set (square r c) (((sqC b (square r c)).set v true).set v false)
        = b.squares
      rw [List.set_set, set_getD_self _ _ _ _ hsu]
      exact set_getD_self b.squares (square r c) (sqC b (square r c)) [] rfl
    · rw [List.set_eq_of_length_le (by omega)]

/-- Witness for the amended C7 at the freshly initialised board. -/
theorem claim_C7_witness :
    cellAt init_board 1 1 = ⟨false, 0⟩ ∧
    used (rowC init_board 1) 5 = false ∧ used (colC init_board 1) 5 = false ∧
    used (sqC init_board (square 1 1)) 5 = false ∧
    unset_cell (set_cell init_board 1 1 5) 1 1 5 = init_board := by
  refine ⟨by decide, by decide, by decide, by decide, ?_⟩
  exact claim_C7 init_board 1 1 5 (by decide) (by decide) (by decide) (by decide)

/-- Claim C8: `solve_board` terminates: the recursion depth is bounded by
82, so any fuel beyond 81 computes the same result (and `solve_board` is
the fuel-82 instance), and the candidate loop's floor strictly increases,
so any iteration bound of at least `10 - prev` computes the same result. -/
theorem claim_C8 :
    (∀ f g b r c, dims b → 1 ≤ r → r ≤ 9 → 1 ≤ c → c ≤ 9 → 81 < f → 81 < g →
      solveD f b r c = solveD g b r c) ∧
    (∀ f b r c, dims b → 1 ≤ r → r ≤ 9 → 1 ≤ c → c ≤ 9 → 81 < f →
      solve_board b r c = ((solveD f b r c).1, (solveD f b r c).2.1)) ∧
    (∀ (go : board → Nat → Nat → Bool × board × Bool) n m b r c prev,
      10 ≤ n + prev → 10 ≤ m + prev → tryVals go n b r c prev = tryVals go m b r c prev) := by
  have hmain : ∀ f g b r c, dims b → 1 ≤ r → r ≤ 9 → 1 ≤ c → c ≤ 9 → 81 < f → 81 < g →
      solveD f b r c = solveD g b r c := by
    intro f g b r c hd h1 h2 h3 h4 hf hg
    have hle := unsetCount_le b
    exact solveD_congr f g b r c hd h1 h2 h3 h4 (by omega) (by omega)
  refine ⟨hmain, ?_, ?_⟩
  · intro f b r c hd h1 h2 h3 h4 hf
    unfold solve_board
    rw [hmain 82 f b r c hd h1 h2 h3 h4 (by omega) hf]
  · exact fun go n m b r c prev hn hm => tryVals_fuel_congr go r c n m b prev hn hm

/-- Witness for C8 at the empty board and concrete fuels. -/
theorem claim_C8_witness :
    solveD 82 init_board 1 1 = solveD 83 init_board 1 1 ∧
    tryVals (solveD 0) 9 init_board 1 1 1 = tryVals (solveD 0) 10 init_board 1 1 1 := by
  refine ⟨?_, ?_⟩
  · exact claim_C8.1 82 83 init_board 1 1 (by decide) (le_refl 1) (by omega) (le_refl 1)
      (by omega) (by omega) (by omega)
  · exact claim_C8.2.2 (solveD 0) 9 10 init_board 1 1 1 (by omega) (by omega)

set_option maxRecDepth 400000 in
/-- Claim C9: on the completely empty board, `solve_board` from `(1, 1)`
succeeds and the first row of the produced grid is 1 2 3 4 5 6 7 8 9. -/
theorem claim_C9 :
    (solve_board init_board 1 1).1 = true ∧
    List.map (fun j => cv (solve_board init_board 1 1).2 1 j) nums
      = [1, 2, 3, 4, 5, 6, 7, 8, 9] := by decide

/-- Claim C10: in `read_board`, the character `0` is skipped like any
ignored character (no cell set, no advance); a digit 1..9 sets the current
cell and advances; `.` advances leaving the cell unset; and once the cell
position `(9, 9)` is consumed the rest of the input is ignored. -/
theorem claim_C10 :
    (∀ rest b row col, readGo ('0' :: rest) b row col = readGo rest b row col) ∧
    (∀ ch : Char, ch ∈ ['1', '2', '3', '4', '5', '6', '7', '8', '9'] →
      (∀ rest b row col r' c', next_cell row col = some (r', c') →
        readGo (ch :: rest) b row col
          = readGo rest (set_cell b row col (ch.toNat - '0'.toNat)) r' c') ∧
      (∀ rest b, readGo (ch :: rest) b 9 9 = set_cell b 9 9 (ch.toNat - '0'.toNat))) ∧
    (∀ rest b row col r' c', next_cell row col = some (r', c') →
      readGo ('.' :: rest) b row col = readGo rest b r' c') ∧
    (∀ rest b, readGo ('.' :: rest) b 9 9 = b) := by
  refine ⟨?_, ?_, ?_, ?_⟩
  · intro rest b row col
    exact readGo_skip (by decide)
  · intro ch hch
    have hcond : ((ch.isDigit && ch != '0') || ch == '.') = true := by
      fin_cases hch <;> decide
    have hdot : (ch != '.') = true := by
      fin_cases hch <;> decide
    constructor
    · intro rest b row col r' c' hnext
      rw [readGo_take_some hcond hnext, if_pos hdot]
    · intro rest b
      rw [readGo_take_none hcond (by decide : next_cell 9 9 = none), if_pos hdot]
  · intro rest b row col r' c' hnext
    rw [readGo_take_some (by decide) hnext, if_neg (by decide)]
  · intro rest b
    rw [readGo_take_none (by decide) (by decide : next_cell 9 9 = none),
      if_neg (by decide)]

/-- Witness for C10 at concrete characters and positions. -/
theorem claim_C10_witness :
    readGo ['0', '5'] init_board 1 1 = readGo ['5'] init_board 1 1 ∧
    readGo ['5'] init_board 9 9 = set_cell init_board 9 9 ('5'.toNat - '0'.toNat) := by
  refine ⟨claim_C10.1 ['5'] init_board 1 1, ?_⟩
  exact (claim_C10.2.1 '5' (by decide)).2 [] init_board

end Sudoku
